import Mathlib

/-!
Verification of the DAV persistent heap allocator (src/common/dav/heap.c).

The file shallowly embeds the heap-layer control flow of heap.c.  The
collaborator modules (bucket, container, recycler, memblock, alloc_class and
the heap_layout header) are not part of the sources under scrutiny; where a
claim depends on them they are either modelled from the specification
(doc comments say so) or abstracted as explicit outcome parameters, so every
theorem below is a statement about the control flow that heap.c itself
contains.

Layout of the file: all definitions first, then the theorems.
-/

namespace DavHeap

/-- POSIX error number used by heap.c for out-of-memory conditions. -/
def ENOMEM : Nat := 12

/-- POSIX error number used by heap.c when an adjacent block does not exist. -/
def ENOENT : Nat := 2

/-- Modelled from the spec: the layout geometry constants of heap_layout.h
(sizeof(struct heap_header), ZONE_MIN_SIZE, ZONE_MAX_SIZE) are not under
src/; the spec only fixes `ZONE_MIN_SIZE ≤ zone ≤ ZONE_MAX_SIZE`, so the
geometry is carried as a parameter with the positivity and ordering the
layout guarantees. -/
structure HeapGeom where
  hdrSize : Nat
  zmin : Nat
  zmax : Nat
  zmin_pos : 0 < zmin
  zmin_le_zmax : zmin ≤ zmax

/-- The while loop of heap_max_zone (heap.c:164-167): while the remaining
size is at least ZONE_MIN_SIZE, count one zone and subtract the whole
remainder if it fits in ZONE_MAX_SIZE, else subtract ZONE_MAX_SIZE. -/
def heapMaxZoneLoop (g : HeapGeom) (size : Nat) : Nat :=
  if g.zmin ≤ size then
    1 + heapMaxZoneLoop g (size - (if size ≤ g.zmax then size else g.zmax))
  else
    0
termination_by size
decreasing_by
  have hz := g.zmin_pos
  have hzz := g.zmin_le_zmax
  split
  case isTrue h =>
    omega
  case isFalse h =>
    omega

/-- heap_max_zone (heap.c:157-170): subtract the heap header size, then run
the zone-counting loop.  In C the subtraction is on size_t; for the sizes the
claim quantifies over (size at least the header size) Nat subtraction agrees
with it. -/
def heap_max_zone (g : HeapGeom) (size : Nat) : Nat :=
  heapMaxZoneLoop g (size - g.hdrSize)

/-! ## Persistent layout data model (spec §3, heap_layout.h is not under src/) -/

/-- Modelled from the spec: chunk type enumeration of §3,
`type ∈ {UNKNOWN, FREE, USED, RUN, RUN_DATA}`, with the usual C enum
numbering starting at 0 (heap_layout.h is not under src/). -/
def CHUNK_TYPE_UNKNOWN : Nat := 0

/-- Chunk type FREE. -/
def CHUNK_TYPE_FREE : Nat := 1

/-- Chunk type USED. -/
def CHUNK_TYPE_USED : Nat := 2

/-- Chunk type RUN. -/
def CHUNK_TYPE_RUN : Nat := 3

/-- Chunk type RUN_DATA. -/
def CHUNK_TYPE_RUN_DATA : Nat := 4

/-- Number of chunk types: one past the largest valid enumerator. -/
def MAX_CHUNK_TYPE : Nat := 5

/-- A persistent chunk header: type, flags bitset, extent in chunks. -/
structure ChunkHeader where
  ctype : Nat
  flags : Nat
  size_idx : Nat
deriving DecidableEq

/-- A persistent zone header: magic tag and number of chunks in the zone. -/
structure ZoneHeader where
  magic : Nat
  size_idx : Nat
deriving DecidableEq

/-- A zone: its header plus the fixed array of chunk headers, modelled as a
total function from chunk index (the code only reads indices below
`header.size_idx ≤ MAX_CHUNK`). -/
structure Zone where
  header : ZoneHeader
  chunk_headers : Nat → ChunkHeader

/-- Modelled from the spec: the remaining layout constants read by the
verification path.  `zoneMagic` is ZONE_HEADER_MAGIC, `flagsMask` is
CHUNK_FLAGS_ALL_VALID, `heapMinSize` is HEAP_MIN_SIZE; their numeric values
live in headers that are not under src/. -/
structure HeapConsts where
  zoneMagic : Nat
  flagsMask : Nat
  heapMinSize : Nat

/-- Modelled from the spec: the heap header carries a signature and a
checksum over the header; the checksum primitive itself is out of scope
(§1), so the header records the outcomes of the two comparisons that
heap_verify_header performs. -/
structure HeapHeader where
  checksumOk : Bool
  signatureOk : Bool

/-- The whole persistent region: heap header plus the array of zones. -/
structure HeapLayout where
  header : HeapHeader
  zones : Nat → Zone

/-! ## C5: heap_check -/

/-- heap_verify_header (heap.c:1134-1148): fail on checksum mismatch, then
on signature mismatch. -/
def heap_verify_header (h : HeapHeader) : Int :=
  if !h.checksumOk then -1
  else if !h.signatureOk then -1
  else 0

/-- heap_verify_zone_header (heap.c:1154-1166): an uninitialized magic is
fine; an initialized zone must have a nonzero size_idx. -/
def heap_verify_zone_header (c : HeapConsts) (zh : ZoneHeader) : Int :=
  if zh.magic ≠ c.zoneMagic then 0
  else if zh.size_idx = 0 then -1
  else 0

/-- heap_verify_chunk_header (heap.c:1172-1191): the type must be neither
UNKNOWN nor at least MAX_CHUNK_TYPE, and no flag outside
CHUNK_FLAGS_ALL_VALID may be set.  The C test `flags & ~mask != 0` is
written here in the equivalent mask-absorption form
`flags &&& mask ≠ flags`. -/
def heap_verify_chunk_header (c : HeapConsts) (hdr : ChunkHeader) : Int :=
  if hdr.ctype = CHUNK_TYPE_UNKNOWN then -1
  else if MAX_CHUNK_TYPE ≤ hdr.ctype then -1
  else if hdr.flags &&& c.flagsMask ≠ hdr.flags then -1
  else 0

/-- The chunk walk of heap_verify_zone (heap.c:1212-1222):
`for (i = 0; i < size_idx; ) { verify hdr[i]; i += hdr[i].size_idx; }`
followed by `i != size_idx → -1`.  The C loop does not check that a chunk
header size_idx is nonzero, so it need not terminate; the embedding takes
fuel and returns none when the fuel runs out.  Each terminating C run
advances i strictly every iteration, so fuel `size_idx + 1` returns
exactly the C result and none exactly on the divergent inputs. -/
def heapVerifyChunkLoop (c : HeapConsts) (z : Zone) : Nat → Nat → Option Int
  | 0, _ => none
  | fuel+1, i =>
    if i < z.header.size_idx then
      if heap_verify_chunk_header c (z.chunk_headers i) ≠ 0 then some (-1)
      else heapVerifyChunkLoop c z fuel (i + (z.chunk_headers i).size_idx)
    else if i = z.header.size_idx then some 0 else some (-1)

/-- heap_verify_zone (heap.c:1196-1225): zero magic is an uninitialized
zone (ok); a wrong nonzero magic fails; then the zone header and the chunk
walk are checked. -/
def heap_verify_zone (c : HeapConsts) (z : Zone) : Option Int :=
  if z.header.magic = 0 then some 0
  else if z.header.magic ≠ c.zoneMagic then some (-1)
  else if heap_verify_zone_header c z.header ≠ 0 then some (-1)
  else heapVerifyChunkLoop c z (z.header.size_idx + 1) 0

/-- The zone loop of heap_check (heap.c:1245-1248), checking n zones
starting at index i. -/
def heapCheckZonesLoop (c : HeapConsts) (zones : Nat → Zone) : Nat → Nat → Option Int
  | _, 0 => some 0
  | i, n+1 =>
    (heap_verify_zone c (zones i)).bind fun r =>
      if r ≠ 0 then some (-1) else heapCheckZonesLoop c zones (i+1) n

/-- heap_check (heap.c:1232-1251): size bound, header verification, then
every zone up to heap_max_zone(heap_size). -/
def heap_check (g : HeapGeom) (c : HeapConsts) (L : HeapLayout) (heap_size : Nat) :
    Option Int :=
  if heap_size < c.heapMinSize then some (-1)
  else if heap_verify_header L.header ≠ 0 then some (-1)
  else heapCheckZonesLoop c L.zones 0 (heap_max_zone g heap_size)

/-- Spec-side description of a valid top-level chunk walk: the list of the
top-level chunk indices, starting at position i, each header valid with a
positive extent, chaining exactly to the zone size. -/
def chunkChain (c : HeapConsts) (z : Zone) : Nat → List Nat → Prop
  | i, [] => i = z.header.size_idx
  | i, j :: rest =>
      j = i ∧ i < z.header.size_idx ∧
      heap_verify_chunk_header c (z.chunk_headers i) = 0 ∧
      0 < (z.chunk_headers i).size_idx ∧
      chunkChain c z (i + (z.chunk_headers i).size_idx) rest

/-- Spec-side zone validity: either uninitialized, or the magic matches,
the size is nonzero, and the top-level chunks partition the zone. -/
def zoneOkP (c : HeapConsts) (z : Zone) : Prop :=
  z.header.magic = 0 ∨
    (z.header.magic = c.zoneMagic ∧ z.header.size_idx ≠ 0 ∧
      ∃ l, chunkChain c z 0 l)

/-- Divergence of the chunk walk: no amount of fuel makes it return. -/
def heapVerifyDiverges (c : HeapConsts) (z : Zone) (i : Nat) : Prop :=
  ∀ fuel, heapVerifyChunkLoop c z fuel i = none

/-- Concrete one-zone geometry used in witnesses: zero header size, zones
of exactly one byte. -/
def gOne : HeapGeom := ⟨0, 1, 1, Nat.one_pos, Nat.le_refl 1⟩

/-- Concrete constants used in witnesses: magic 7, flags mask 3, minimum
heap size 1. -/
def cOne : HeapConsts := ⟨7, 3, 1⟩

/-- A zone that makes the heap_verify_zone chunk walk diverge: correct
magic, size 1, and a FREE top-level chunk header of extent 0. -/
def zoneDiv : Zone := ⟨⟨7, 1⟩, fun _ => ⟨CHUNK_TYPE_FREE, 0, 0⟩⟩

/-- A layout whose single zone is zoneDiv, with a header that verifies. -/
def layoutDiv : HeapLayout := ⟨⟨true, true⟩, fun _ => zoneDiv⟩

/-- A layout whose zones are all uninitialized (magic 0). -/
def layoutOk : HeapLayout := ⟨⟨true, true⟩, fun _ => ⟨⟨0, 0⟩, fun _ => ⟨0, 0, 0⟩⟩⟩

/-! ## Memory blocks, adjacency and coalescing (C4, C10) -/

/-- A volatile memory block handle, with the fields heap.c reads and
writes, in the declaration order of struct memory_block: chunk_id,
zone_id, size_idx, block_off. -/
structure MemoryBlock where
  chunk_id : Nat
  zone_id : Nat
  size_idx : Nat
  block_off : Nat
deriving DecidableEq

/-- MEMORY_BLOCK_NONE: the all-zero block. -/
def MEMORY_BLOCK_NONE : MemoryBlock := ⟨0, 0, 0, 0⟩

/-- heap_get_adjacent_free_block (heap.c:226-261) on the zone of the input
block; none stands for the C result ENOENT, some for the filled-in out
block (the callers start from MEMORY_BLOCK_NONE, so block_off is 0).  The
C index arithmetic is on uint32; the theorems only invoke this under the
layout invariants, where Nat arithmetic agrees. -/
def heap_get_adjacent_free_block (z : Zone) (m : MemoryBlock) (prev : Bool) :
    Option MemoryBlock :=
  if prev then
    if m.chunk_id = 0 then none
    else
      let prev_hdr := z.chunk_headers (m.chunk_id - 1)
      let oc := m.chunk_id - prev_hdr.size_idx
      if (z.chunk_headers oc).ctype ≠ CHUNK_TYPE_FREE then none
      else some ⟨oc, m.zone_id, (z.chunk_headers oc).size_idx, 0⟩
  else
    let hdr := z.chunk_headers m.chunk_id
    if m.chunk_id + hdr.size_idx = z.header.size_idx then none
    else
      let oc := m.chunk_id + hdr.size_idx
      if (z.chunk_headers oc).ctype ≠ CHUNK_TYPE_FREE then none
      else some ⟨oc, m.zone_id, (z.chunk_headers oc).size_idx, 0⟩

/-- Modelled from the spec: the default bucket container is a size-ordered
index of free blocks (§4.3); bucket.c and container_ravl.c are not under
src/.  Only the membership behaviour matters here, so the container is a
list of blocks and remove_specific succeeds exactly when the block is
present. -/
def bucket_remove_block (b : List MemoryBlock) (m : MemoryBlock) :
    Option (List MemoryBlock) :=
  if m ∈ b then some (b.erase m) else none

/-- Modelled from the spec: container insert (§4.3). -/
def bucket_insert_block (b : List MemoryBlock) (m : MemoryBlock) :
    List MemoryBlock :=
  m :: b

/-- heap_coalesce (heap.c:266-290): the merged block takes its position
from the first present block and sums the size indices of all present
blocks. -/
def heap_coalesce (blocks : List (Option MemoryBlock)) : MemoryBlock :=
  match blocks.filterMap id with
  | [] => MEMORY_BLOCK_NONE
  | b :: rest =>
      ⟨b.chunk_id, b.zone_id, ((b :: rest).map MemoryBlock.size_idx).sum, b.block_off⟩

/-- heap_coalesce_huge (heap.c:296-317): look up the two neighbors; each
that exists, is FREE, and can be removed from the bucket joins the merge;
the merged block and the bucket after the removals are returned. -/
def heap_coalesce_huge (z : Zone) (b : List MemoryBlock) (m : MemoryBlock) :
    MemoryBlock × List MemoryBlock :=
  let step1 : Option MemoryBlock × List MemoryBlock :=
    match heap_get_adjacent_free_block z m true with
    | some p =>
        match bucket_remove_block b p with
        | some b2 => (some p, b2)
        | none => (none, b)
    | none => (none, b)
  let step2 : Option MemoryBlock × List MemoryBlock :=
    match heap_get_adjacent_free_block z m false with
    | some n =>
        match bucket_remove_block step1.2 n with
        | some b2 => (some n, b2)
        | none => (none, step1.2)
    | none => (none, step1.2)
  (heap_coalesce [step1.1, some m, step2.1], step2.2)

/-- Result of heap_free_chunk_reuse: the block that was inserted, the
bucket afterwards, and whether prep_hdr(FREE) was written through the WAL
path. -/
structure FreeChunkReuseResult where
  block : MemoryBlock
  bucket : List MemoryBlock
  prepHdrFree : Bool
deriving DecidableEq

/-- heap_free_chunk_reuse (heap.c:322-339): coalesce with the neighbors;
if the size changed, rewrite the chunk header as FREE through
prep_hdr; insert the result into the bucket. -/
def heap_free_chunk_reuse (z : Zone) (b : List MemoryBlock) (m : MemoryBlock) :
    FreeChunkReuseResult :=
  let r := heap_coalesce_huge z b m
  { block := r.1
    bucket := bucket_insert_block r.2 r.1
    prepHdrFree := decide (r.1.size_idx ≠ m.size_idx) }

/-- The neighbor on one side that heap_coalesce_huge actually merges: the
adjacent block, provided it exists, is FREE, and is present in the
bucket. -/
def removableNeighbor (z : Zone) (b : List MemoryBlock) (m : MemoryBlock)
    (prev : Bool) : Option MemoryBlock :=
  match heap_get_adjacent_free_block z m prev with
  | some x => if x ∈ b then some x else none
  | none => none

/-- Size of an optional block, 0 when absent. -/
def optSize : Option MemoryBlock → Nat
  | some x => x.size_idx
  | none => 0

/-- The bucket after the prev-side removal of heap_coalesce_huge. -/
def bucketAfterPrev (z : Zone) (b : List MemoryBlock) (m : MemoryBlock) :
    List MemoryBlock :=
  match removableNeighbor z b m true with
  | some p => b.erase p
  | none => b

/-- The next-side neighbor heap_coalesce_huge actually merges; its removal
is attempted on the bucket left by the prev-side removal. -/
def mergedNext (z : Zone) (b : List MemoryBlock) (m : MemoryBlock) :
    Option MemoryBlock :=
  removableNeighbor z (bucketAfterPrev z b m) m false

/-- The bucket after both removals of heap_coalesce_huge. -/
def bucketAfterBoth (z : Zone) (b : List MemoryBlock) (m : MemoryBlock) :
    List MemoryBlock :=
  match mergedNext z b m with
  | some n => (bucketAfterPrev z b m).erase n
  | none => bucketAfterPrev z b m

/-- The chunk index of the leftmost merged block: the prev neighbor when
one was merged, otherwise the input block itself. -/
def mergeStartChunk (p : Option MemoryBlock) (m : MemoryBlock) : Nat :=
  match p with
  | some x => x.chunk_id
  | none => m.chunk_id

/-- Concrete zone for the C4 and C10 witnesses: three one-chunk FREE
chunks. -/
def zWit : Zone := ⟨⟨7, 3⟩, fun _ => ⟨CHUNK_TYPE_FREE, 0, 1⟩⟩

/-- Concrete middle block for the C4 and C10 witnesses. -/
def mWit : MemoryBlock := ⟨1, 0, 1, 0⟩

/-- Concrete bucket for the C4 and C10 witnesses: both neighbors of mWit
are present. -/
def bWit : List MemoryBlock := [⟨0, 0, 1, 0⟩, ⟨2, 0, 1, 0⟩]

/-! ## Address arithmetic (C9) -/

/-- Modelled from the spec: byte-level geometry of the persistent layout
(§3) — heap header, then zones, each a zone header followed by a fixed
array of MAX_CHUNK chunk headers followed by the chunk payload; the sizeof
constants live in heap_layout.h, which is not under src/. -/
structure AddrGeom where
  heapHdrSize : Nat
  zoneHdrSize : Nat
  chunkHdrSize : Nat
  maxChunk : Nat
  chunkSize : Nat

/-- ZONE_MAX_SIZE: the byte size of a full zone. -/
def zoneMaxSize (a : AddrGeom) : Nat :=
  a.zoneHdrSize + a.maxChunk * a.chunkHdrSize + a.maxChunk * a.chunkSize

/-- ZID_TO_ZONE: the byte address of the given zone. -/
def zoneStart (a : AddrGeom) (base zone_id : Nat) : Nat :=
  base + a.heapHdrSize + zone_id * zoneMaxSize a

/-- The byte address of element i of a zone's chunks array. -/
def chunkAddr (a : AddrGeom) (base zone_id i : Nat) : Nat :=
  zoneStart a base zone_id + a.zoneHdrSize + a.maxChunk * a.chunkHdrSize +
    i * a.chunkSize

/-- heap_end (heap.c:850-858): the address of chunk array element
`size_idx` (as recorded in the last zone's own header) of the last
zone. -/
def heap_end (a : AddrGeom) (base : Nat) (zones : Nat → Zone) (nzones : Nat) :
    Nat :=
  chunkAddr a base (nzones - 1) ((zones (nzones - 1)).header.size_idx)

/-- zone_calc_size_idx (heap.c:175-197): every zone except the last holds
MAX_CHUNK chunks; the last holds the remaining bytes divided by CHUNKSIZE.
The two C subtractions are guarded by ASSERTs; the theorems supply the
same bounds, under which Nat subtraction agrees. -/
def zone_calc_size_idx (a : AddrGeom) (zone_id max_zone heap_size : Nat) : Nat :=
  if zone_id < max_zone - 1 then a.maxChunk
  else
    ((heap_size - zone_id * zoneMaxSize a) -
      (a.zoneHdrSize + a.chunkHdrSize * a.maxChunk + a.heapHdrSize)) / a.chunkSize

/-- Concrete geometry for the C9 witness: heap header 8 bytes, zone header
4 bytes, chunk header 2 bytes, 3 chunks per zone, chunk size 16 bytes
(zoneMaxSize 58). -/
def aW : AddrGeom := ⟨8, 4, 2, 3, 16⟩

/-- Concrete zones for the C9 witness: every zone reports two chunks. -/
def zonesW : Nat → Zone := fun _ => ⟨⟨7, 2⟩, fun _ => ⟨CHUNK_TYPE_FREE, 0, 1⟩⟩

/-! ## Allocation classes and bucket refill (C1, C2, C3, C6, C8) -/

/-- Class kind: CLASS_HUGE or CLASS_RUN. -/
inductive ClassType
  | huge
  | run
deriving DecidableEq

/-- Modelled from the spec: the fields of struct alloc_class that heap.c
reads (§4.2; alloc_class.h is not under src/): id, kind, configured header
type, and the run descriptor's nallocs and size_idx. -/
structure AllocClassView where
  id : Nat
  ctype : ClassType
  header_type : Nat
  nallocs : Nat
  rdsc_size_idx : Nat
deriving DecidableEq

/-- Volatile population state of the heap runtime: zone counters and the
per-zone magic tags the populate path reads and writes. -/
structure PopulateSt where
  nzones : Nat
  zones_exhausted : Nat
  zoneMagic : Nat → Nat

/-- Result of heap_populate_bucket: the return code, the state afterwards,
which zone header was initialized (magic was not set), and which zone had
its garbage reclaimed into the bucket. -/
structure PopulateResult where
  ret : Nat
  st : PopulateSt
  initializedZone : Option Nat
  reclaimedZone : Option Nat

/-- heap_populate_bucket (heap.c:468-495): fail with ENOMEM when every
zone is exhausted; otherwise take zone `zones_exhausted`, increment the
counter, initialize the zone header if its magic is not ZONE_HEADER_MAGIC,
and reclaim the zone's garbage into the bucket (the bucket-filling effect
is covered by heap_reclaim_zone_garbage and is recorded here as an
event). -/
def heap_populate_bucket (c : HeapConsts) (st : PopulateSt) : PopulateResult :=
  if st.zones_exhausted = st.nzones then
    ⟨ENOMEM, st, none, none⟩
  else
    let zone_id := st.zones_exhausted
    let needInit := st.zoneMagic zone_id ≠ c.zoneMagic
    ⟨0,
      { st with
        zones_exhausted := st.zones_exhausted + 1
        zoneMagic := fun i =>
          if needInit ∧ i = zone_id then c.zoneMagic else st.zoneMagic i },
      if needInit then some zone_id else none,
      some zone_id⟩

/-- Modelled from the spec: what the huge-refill path observes of one
per-class recycler (§4.6; recycler.c is not under src/): the vector of
empty runs a forced recycler_recalc returns. -/
structure RecyclerView where
  emptyRuns : List MemoryBlock

/-- heap_recycle_unused with force (heap.c:504-535): ENOMEM when the
recalculated vector of empty runs is empty, 0 otherwise (each returned run
is turned into a free chunk). -/
def heap_recycle_unused_ret (r : RecyclerView) : Nat :=
  if r.emptyRuns.length = 0 then ENOMEM else 0

/-- heap_reclaim_garbage (heap.c:540-557): walk every allocation class
slot; missing recyclers are skipped; the result is 0 as soon as one
recycle pass returned 0. -/
def heap_reclaim_garbage_ret (rs : List (Option RecyclerView)) : Nat :=
  rs.foldl
    (fun ret o =>
      match o with
      | none => ret
      | some r => if heap_recycle_unused_ret r = 0 then 0 else ret)
    ENOMEM

/-- heap_ensure_huge_bucket_filled (heap.c:563-593): reclaim garbage, then
up to two populate attempts (the heap_extend hook between them is compiled
out). -/
def heap_ensure_huge_bucket_filled (c : HeapConsts)
    (rs : List (Option RecyclerView)) (st : PopulateSt) : Nat × PopulateSt :=
  if heap_reclaim_garbage_ret rs = 0 then (0, st)
  else
    let r1 := heap_populate_bucket c st
    if r1.ret = 0 then (0, r1.st)
    else
      let r2 := heap_populate_bucket c r1.st
      if r2.ret = 0 then (0, r2.st)
      else (ENOMEM, r2.st)

/-- Concrete population state for the C2 witness: two zones, one already
exhausted, all magic tags unset. -/
def stW : PopulateSt := ⟨2, 1, fun _ => 0⟩

/-- Concrete recycler slots for the C2 witness: one absent recycler and
one with no empty runs. -/
def rsW : List (Option RecyclerView) := [none, some ⟨[]⟩]

/-- What one call of heap_reuse_from_recycler observes of its collaborators:
whether heap_get_recycler produced a recycler, and the blocks the two
recycler_get calls would hand out (modelled from the spec §4.6; recycler.c
is not under src/). -/
structure ReuseOracle where
  recyclerAvailable : Bool
  get1 : Option MemoryBlock
  get2 : Option MemoryBlock

/-- heap_reuse_from_recycler (heap.c:637-666): when the recycler cannot be
obtained the error is only logged and the function returns 0 without
attaching anything; otherwise (unless force) a first recycler_get is
tried, then heap_recycle_unused runs and a second recycler_get is tried;
a block obtained either way is attached to the bucket (bucket_attach_run,
modelled from the spec as succeeding); otherwise ENOMEM.  Returns the
return code and the attached run, if any. -/
def heap_reuse_from_recycler (o : ReuseOracle) (force : Bool) :
    Nat × Option MemoryBlock :=
  if o.recyclerAvailable = false then (0, none)
  else
    match force, o.get1 with
    | false, some m => (0, some m)
    | _, _ =>
      match o.get2 with
      | some m => (0, some m)
      | none => (ENOMEM, none)

/-- Outcome record of heap_ensure_run_bucket_filled: return code, the run
attached to the bucket (if any), the detached run that was discarded
because it was empty (if any), whether a zone was populated into the
default bucket, and whether a fresh run was carved. -/
structure RunRefillOutcome where
  ret : Nat
  attached : Option MemoryBlock
  discarded : Option MemoryBlock
  populated : Bool
  createdRun : Bool
deriving DecidableEq

/-- heap_ensure_run_bucket_filled (heap.c:689-742): detach the active run
(discarding it when empty); then, in order, reuse from the recycler,
populate one more zone and reuse again, carve a fresh run of
rdsc.size_idx chunks from a best-fit block of the default bucket
(heap_run_create always returns 0), and one final reuse attempt.  The
carve oracle is a function of the requested chunk count; detach none
represents bucket_detach_run failing. -/
def heap_ensure_run_bucket_filled (aclass : AllocClassView)
    (detach : Option (MemoryBlock × Bool)) (o1 o2 o3 : ReuseOracle)
    (carve : Nat → Option MemoryBlock) : RunRefillOutcome :=
  match detach with
  | none => ⟨ENOMEM, none, none, false, false⟩
  | some (dm, dempty) =>
    let disc := if dempty then some dm else none
    let r1 := heap_reuse_from_recycler o1 false
    if r1.1 = 0 then ⟨0, r1.2, disc, false, false⟩
    else
      let r2 := heap_reuse_from_recycler o2 false
      if r2.1 = 0 then ⟨0, r2.2, disc, true, false⟩
      else
        match carve aclass.rdsc_size_idx with
        | some cm => ⟨0, some cm, disc, true, true⟩
        | none =>
          let r3 := heap_reuse_from_recycler o3 false
          if r3.1 = 0 then ⟨0, r3.2, disc, true, false⟩
          else ⟨ENOMEM, none, disc, true, false⟩

/-- heap_reclaim_run result: 1 demotes the run to a free chunk, 0 keeps
it; putElement records whether an element was inserted into the class's
recycler. -/
structure ReclaimRunResult where
  ret : Nat
  putElement : Bool
deriving DecidableEq

/-- heap_reclaim_run (heap.c:382-422): the class is looked up by the run's
block size, flags and m.size_idx (the lookup outcome is the cls argument);
e_free is the free-cell count recycler_element_new computes and nbits the
run bitmap's bit count (both collaborator outputs).  With no class, return
whether the run is fully free by bitmap count; with a class, a fully empty
run returns 1; otherwise an element is put into the recycler — unless the
recycler cannot be obtained or the put fails, which is only logged — and
the result is 0. -/
def heap_reclaim_run (cls : Option AllocClassView) (e_free nbits : Nat)
    (recyclerAvailable putOk : Bool) : ReclaimRunResult :=
  match cls with
  | none => ⟨if e_free = nbits then 1 else 0, false⟩
  | some cl =>
    if e_free = cl.nallocs then ⟨1, false⟩
    else ⟨0, recyclerAvailable && putOk⟩

/-- The volatile type tag of a memory block (m->type): run or not. -/
inductive MemblockType
  | huge
  | run
deriving DecidableEq

/-- heap_memblock_on_free (heap.c:748-777): everything in the function is
a read except the final recycler_inc_unaccounted, whose occurrence is the
returned Bool.  Non-run blocks return immediately; then the class is
looked up from the run's block size and the chunk header's flags and
size_idx; no class, or an unobtainable recycler (only logged), means no
call. -/
def heap_memblock_on_free (byRun : Nat → Nat → Nat → Option AllocClassView)
    (runBlockSize : Nat) (z : Zone) (m : MemoryBlock) (mtype : MemblockType)
    (recyclerAvailable : Bool) : Bool :=
  match mtype with
  | MemblockType.huge => false
  | MemblockType.run =>
    let hdr := z.chunk_headers m.chunk_id
    match byRun runBlockSize hdr.flags hdr.size_idx with
    | none => false
    | some _ => recyclerAvailable

/-- The refill dispatch of heap_get_bestfit_block (heap.c:826-833): the
class kind selects the huge or the run refill; the argument counts the
refill calls made so far, so the oracles describe one call each. -/
def bestfitRefill (aclass : AllocClassView) (hugeRefill runRefill : Nat → Nat)
    (k : Nat) : Nat :=
  match aclass.ctype with
  | ClassType.huge => hugeRefill k
  | ClassType.run => runRefill k

/-- The alloc/refill loop of heap_get_bestfit_block: each element of the
list is one bucket_alloc_block outcome (some block on success).  On a miss
the dispatched refill runs; a nonzero refill result ends the loop with
ENOMEM (encoded some none).  An exhausted oracle list returns none — the C
loop would simply keep iterating. -/
def heapGetBestfitLoop (aclass : AllocClassView) (hugeRefill runRefill : Nat → Nat) :
    List (Option MemoryBlock) → Nat → Option (Option MemoryBlock)
  | [], _ => none
  | a :: rest, k =>
    match a with
    | some m => some (some m)
    | none =>
      if bestfitRefill aclass hugeRefill runRefill k ≠ 0 then some none
      else heapGetBestfitLoop aclass hugeRefill runRefill rest (k+1)

/-- heap_split_block (heap.c:782-813): returns the caller's block (size
units) and the remainder block that is inserted back into the same bucket.
For a run class the remainder keeps the chunk and advances block_off by
units; for huge the remainder starts units chunks later (both parts are
re-initialized through memblock_huge_init, which zeroes block_off). -/
def heap_split_block (aclass : AllocClassView) (m : MemoryBlock) (units : Nat) :
    MemoryBlock × MemoryBlock :=
  match aclass.ctype with
  | ClassType.run =>
    (⟨m.chunk_id, m.zone_id, units, m.block_off⟩,
     ⟨m.chunk_id, m.zone_id, m.size_idx - units, m.block_off + units⟩)
  | ClassType.huge =>
    (⟨m.chunk_id, m.zone_id, units, 0⟩,
     ⟨m.chunk_id + units, m.zone_id, m.size_idx - units, 0⟩)

/-- Result of heap_get_bestfit_block: return code, the final block, the
header_type member written into it, and the remainder block the split
inserted back into the bucket, if any. -/
structure BestfitResult where
  ret : Nat
  m : MemoryBlock
  header_type : Nat
  inserted : Option MemoryBlock
deriving DecidableEq

/-- heap_get_bestfit_block (heap.c:819-845): loop on bucket_alloc_block
with refills dispatched by class kind; on success split when the obtained
block is larger than the request, then write the class's header type
through ensure_header_type and into m->header_type.  none means the
outcome oracle was exhausted. -/
def heap_get_bestfit_block (aclass : AllocClassView)
    (hugeRefill runRefill : Nat → Nat) (allocs : List (Option MemoryBlock))
    (m0 : MemoryBlock) : Option BestfitResult :=
  match heapGetBestfitLoop aclass hugeRefill runRefill allocs 0 with
  | none => none
  | some none => some ⟨ENOMEM, m0, 0, none⟩
  | some (some mAl) =>
    if m0.size_idx ≠ mAl.size_idx then
      let p := heap_split_block aclass mAl m0.size_idx
      some ⟨0, p.1, aclass.header_type, some p.2⟩
    else
      some ⟨0, mAl, aclass.header_type, none⟩

/-! # Theorems -/

theorem heapMaxZoneLoop_eq (g : HeapGeom) :
    ∀ s, heapMaxZoneLoop g s = s / g.zmax + (if g.zmin ≤ s % g.zmax then 1 else 0) := by
  intro s
  induction s using Nat.strong_induction_on with
  | _ s ih =>
    rw [heapMaxZoneLoop]
    have hz := g.zmin_pos
    have hzz := g.zmin_le_zmax
    by_cases hmin : g.zmin ≤ s
    · simp only [if_pos hmin]
      by_cases hmax : s ≤ g.zmax
      · simp only [if_pos hmax]
        have h0 : s - s = 0 := Nat.sub_self s
        rw [h0, heapMaxZoneLoop]
        simp only [if_neg (by omega : ¬ g.zmin ≤ 0)]
        rcases Nat.lt_or_ge s g.zmax with hlt | hge
        · have hdiv : s / g.zmax = 0 := Nat.div_eq_of_lt hlt
          have hmod : s % g.zmax = s := Nat.mod_eq_of_lt hlt
          rw [hdiv, hmod, if_pos hmin]
        · have hseq : s = g.zmax := le_antisymm hmax hge
          have hpos : 0 < g.zmax := by omega
          rw [hseq, Nat.div_self hpos, Nat.mod_self]
          simp only [if_neg (by omega : ¬ g.zmin ≤ 0)]
      · simp only [if_neg hmax]
        have hlt : s - g.zmax < s := by omega
        rw [ih (s - g.zmax) hlt]
        have hrepr : s = (s - g.zmax) + g.zmax := by omega
        have hdiv : s / g.zmax = (s - g.zmax) / g.zmax + 1 := by
          conv_lhs => rw [hrepr]
          exact Nat.add_div_right _ (by omega)
        have hmod : s % g.zmax = (s - g.zmax) % g.zmax := by
          conv_lhs => rw [hrepr]
          exact Nat.add_mod_right _ _
        rw [hdiv, hmod]
        ring
    · simp only [if_neg hmin]
      have hlt : s < g.zmax := by omega
      rw [Nat.div_eq_of_lt hlt, Nat.mod_eq_of_lt hlt]
      simp only [if_neg hmin]

/-- C7: for every heap size at least the heap header size, heap_max_zone
computes floor((size - header) / ZONE_MAX_SIZE) plus one extra zone exactly
when the remainder is at least ZONE_MIN_SIZE. -/
theorem C7_heap_max_zone (g : HeapGeom) (size : Nat) (hsz : g.hdrSize ≤ size) :
    heap_max_zone g size =
      (size - g.hdrSize) / g.zmax +
        (if g.zmin ≤ (size - g.hdrSize) % g.zmax then 1 else 0) := by
  unfold heap_max_zone
  exact heapMaxZoneLoop_eq g (size - g.hdrSize)

/-- Witness for C7 at a concrete geometry: header 1024, zmin 4096,
zmax 16384, size 40000 gives 40000 - 1024 = 38976 = 2 * 16384 + 6208 with
remainder 6208 at least zmin, hence 3 zones. -/
theorem C7_heap_max_zone_witness :
    (1024 : Nat) ≤ 40000 ∧
      heap_max_zone ⟨1024, 4096, 16384, by decide, by decide⟩ 40000 =
        (40000 - 1024) / 16384 + (if (4096 : Nat) ≤ (40000 - 1024) % 16384 then 1 else 0) :=
  ⟨by decide, C7_heap_max_zone ⟨1024, 4096, 16384, by decide, by decide⟩ 40000 (by decide)⟩

/-- A chain from position i covers exactly the interval up to the zone
size: the top-level extents sum to `size_idx - i`. -/
theorem chunkChain_sum (c : HeapConsts) (z : Zone) :
    ∀ l i, chunkChain c z i l →
      i + (l.map (fun j => (z.chunk_headers j).size_idx)).sum = z.header.size_idx := by
  intro l
  induction l with
  | nil =>
    intro i h
    simpa [chunkChain] using h
  | cons j rest ih =>
    intro i h
    simp only [chunkChain] at h
    obtain ⟨hj, -, -, -, hrest⟩ := h
    subst hj
    have := ih _ hrest
    simp only [List.map_cons, List.sum_cons]
    omega

/-- Every chain is short: it advances at least one chunk per element. -/
theorem chunkChain_length (c : HeapConsts) (z : Zone) :
    ∀ l i, chunkChain c z i l → i + l.length ≤ z.header.size_idx := by
  intro l
  induction l with
  | nil =>
    intro i h
    simp only [chunkChain] at h
    simp only [List.length_nil]
    omega
  | cons j rest ih =>
    intro i h
    simp only [chunkChain] at h
    obtain ⟨-, -, -, hpos, hrest⟩ := h
    have := ih _ hrest
    simp only [List.length_cons]
    omega

theorem heapVerifyChunkLoop_some_zero_chain (c : HeapConsts) (z : Zone) :
    ∀ fuel i, heapVerifyChunkLoop c z fuel i = some 0 → ∃ l, chunkChain c z i l := by
  intro fuel
  induction fuel with
  | zero =>
    intro i h
    simp [heapVerifyChunkLoop] at h
  | succ f ih =>
    intro i h
    rw [heapVerifyChunkLoop] at h
    by_cases hi : i < z.header.size_idx
    · rw [if_pos hi] at h
      by_cases hv : heap_verify_chunk_header c (z.chunk_headers i) ≠ 0
      · rw [if_pos hv] at h
        exact absurd h (by decide)
      · rw [if_neg hv] at h
        push_neg at hv
        by_cases hs : 0 < (z.chunk_headers i).size_idx
        · obtain ⟨l, hl⟩ := ih _ h
          exact ⟨i :: l, ⟨rfl, hi, hv, hs, hl⟩⟩
        · have hz : (z.chunk_headers i).size_idx = 0 := by omega
          rw [hz, Nat.add_zero] at h
          exact ih _ h
    · rw [if_neg hi] at h
      by_cases he : i = z.header.size_idx
      · exact ⟨[], he⟩
      · rw [if_neg he] at h
        exact absurd h (by decide)

theorem chunkChain_loop_some_zero (c : HeapConsts) (z : Zone) :
    ∀ l i fuel, chunkChain c z i l → l.length < fuel →
      heapVerifyChunkLoop c z fuel i = some 0 := by
  intro l
  induction l with
  | nil =>
    intro i fuel h hf
    simp only [chunkChain] at h
    obtain ⟨f, rfl⟩ : ∃ f, fuel = f + 1 := ⟨fuel - 1, by omega⟩
    rw [heapVerifyChunkLoop, if_neg (by omega), if_pos h]
  | cons j rest ih =>
    intro i fuel h hf
    simp only [chunkChain] at h
    obtain ⟨-, hi, hv, -, hrest⟩ := h
    obtain ⟨f, rfl⟩ : ∃ f, fuel = f + 1 := ⟨fuel - 1, by omega⟩
    rw [heapVerifyChunkLoop, if_pos hi, if_neg (by simpa using hv)]
    exact ih _ f hrest (by simpa using hf)

/-- The loop only ever reports 0 or -1 when it returns. -/
theorem heapVerifyChunkLoop_values (c : HeapConsts) (z : Zone) :
    ∀ fuel i r, heapVerifyChunkLoop c z fuel i = some r → r = 0 ∨ r = -1 := by
  intro fuel
  induction fuel with
  | zero =>
    intro i r h
    simp [heapVerifyChunkLoop] at h
  | succ f ih =>
    intro i r h
    rw [heapVerifyChunkLoop] at h
    by_cases hi : i < z.header.size_idx
    · rw [if_pos hi] at h
      by_cases hv : heap_verify_chunk_header c (z.chunk_headers i) ≠ 0
      · rw [if_pos hv] at h
        right
        exact (Option.some_inj.mp h).symm
      · rw [if_neg hv] at h
        exact ih _ _ h
    · rw [if_neg hi] at h
      by_cases he : i = z.header.size_idx
      · rw [if_pos he] at h
        left
        exact (Option.some_inj.mp h).symm
      · rw [if_neg he] at h
        right
        exact (Option.some_inj.mp h).symm

/-- heap_verify_zone succeeds exactly on spec-valid zones. -/
theorem heap_verify_zone_ok_iff (c : HeapConsts) (z : Zone) :
    heap_verify_zone c z = some 0 ↔ zoneOkP c z := by
  unfold heap_verify_zone zoneOkP
  by_cases hm0 : z.header.magic = 0
  · simp [hm0]
  · rw [if_neg hm0]
    by_cases hmm : z.header.magic ≠ c.zoneMagic
    · rw [if_pos hmm]
      constructor
      · intro h
        exact absurd h (by decide)
      · rintro (h | ⟨h, -, -⟩)
        · exact absurd h hm0
        · exact absurd h hmm
    · rw [if_neg hmm]
      push_neg at hmm
      by_cases hsz : z.header.size_idx = 0
      · have hzh : heap_verify_zone_header c z.header = -1 := by
          unfold heap_verify_zone_header
          rw [if_neg (not_not_intro hmm), if_pos hsz]
        rw [if_pos (by rw [hzh]; decide)]
        constructor
        · intro h
          exact absurd h (by decide)
        · rintro (h | ⟨-, h, -⟩)
          · exact absurd h hm0
          · exact absurd hsz h
      · have hzh : heap_verify_zone_header c z.header = 0 := by
          unfold heap_verify_zone_header
          rw [if_neg (not_not_intro hmm), if_neg hsz]
        rw [if_neg (by rw [hzh]; decide)]
        constructor
        · intro h
          exact Or.inr ⟨hmm, hsz, heapVerifyChunkLoop_some_zero_chain c z _ 0 h⟩
        · rintro (h | ⟨-, -, l, hl⟩)
          · exact absurd h hm0
          · have hlen := chunkChain_length c z l 0 hl
            exact chunkChain_loop_some_zero c z l 0 _ hl (by omega)

theorem heapCheckZonesLoop_ok_iff (c : HeapConsts) (zones : Nat → Zone) :
    ∀ n i, heapCheckZonesLoop c zones i n = some 0 ↔
      ∀ j, j < n → heap_verify_zone c (zones (i + j)) = some 0 := by
  intro n
  induction n with
  | zero =>
    intro i
    simp [heapCheckZonesLoop]
  | succ m ih =>
    intro i
    rw [heapCheckZonesLoop]
    cases hz : heap_verify_zone c (zones i) with
    | none =>
      simp only [hz, Option.bind]
      constructor
      · intro h
        exact absurd h (by simp)
      · intro h
        have h0 := h 0 (Nat.succ_pos m)
        rw [Nat.add_zero, hz] at h0
        exact absurd h0 (by simp)
    | some r =>
      simp only [hz, Option.bind]
      by_cases hr : r ≠ 0
      · rw [if_pos hr]
        constructor
        · intro h
          exact absurd h (by decide)
        · intro h
          have h0 := h 0 (Nat.succ_pos m)
          rw [Nat.add_zero, hz] at h0
          exact absurd (Option.some_inj.mp h0) hr
      · rw [if_neg hr]
        push_neg at hr
        subst hr
        rw [ih (i + 1)]
        constructor
        · intro h j hj
          rcases Nat.eq_zero_or_pos j with rfl | hjpos
          · rw [Nat.add_zero]
            exact hz
          · have := h (j - 1) (by omega)
            have harr : i + 1 + (j - 1) = i + j := by omega
            rwa [harr] at this
        · intro h j hj
          have := h (j + 1) (by omega)
          have harr : i + (j + 1) = i + 1 + j := by omega
          rwa [harr] at this

theorem heapCheckZonesLoop_values (c : HeapConsts) (zones : Nat → Zone) :
    ∀ n i r, heapCheckZonesLoop c zones i n = some r → r = 0 ∨ r = -1 := by
  intro n
  induction n with
  | zero =>
    intro i r h
    simp only [heapCheckZonesLoop, Option.some_inj] at h
    exact Or.inl h.symm
  | succ m ih =>
    intro i r h
    rw [heapCheckZonesLoop] at h
    cases hz : heap_verify_zone c (zones i) with
    | none =>
      rw [hz] at h
      exact absurd h (by simp)
    | some s =>
      rw [hz] at h
      simp only [Option.bind] at h
      by_cases hs : s ≠ 0
      · rw [if_pos hs] at h
        exact Or.inr (Option.some_inj.mp h).symm
      · rw [if_neg hs] at h
        exact ih _ _ h

/-- C5 amended: heap_check returns 0 exactly when the size is at least
HEAP_MIN_SIZE, the header checksum and signature verify, and every zone up
to heap_max_zone(size) is spec-valid (uninitialized, or correct magic,
nonzero size and a valid top-level chunk partition); whenever it returns
at all, the result is 0 or -1.  (The original claim also asserted that it
returns -1 in *every* other case; the chunk walk diverges when it reaches
a chunk header of size_idx 0, see the counterexample.) -/
theorem C5_heap_check_characterization (g : HeapGeom) (c : HeapConsts)
    (L : HeapLayout) (heap_size : Nat) :
    (heap_check g c L heap_size = some 0 ↔
      (c.heapMinSize ≤ heap_size ∧ L.header.checksumOk = true ∧
        L.header.signatureOk = true ∧
        ∀ j, j < heap_max_zone g heap_size → zoneOkP c (L.zones j))) ∧
    (∀ r, heap_check g c L heap_size = some r → r = 0 ∨ r = -1) := by
  unfold heap_check
  by_cases hsz : heap_size < c.heapMinSize
  · rw [if_pos hsz]
    constructor
    · constructor
      · intro h
        exact absurd h (by decide)
      · rintro ⟨h, -⟩
        omega
    · intro r h
      exact Or.inr (Option.some_inj.mp h).symm
  · rw [if_neg hsz]
    by_cases hhd : heap_verify_header L.header ≠ 0
    · rw [if_pos hhd]
      constructor
      · constructor
        · intro h
          exact absurd h (by decide)
        · rintro ⟨-, hck, hsg, -⟩
          exact absurd (by unfold heap_verify_header; rw [hck, hsg]; rfl) hhd
      · intro r h
        exact Or.inr (Option.some_inj.mp h).symm
    · rw [if_neg hhd]
      push_neg at hhd
      have hck : L.header.checksumOk = true ∧ L.header.signatureOk = true := by
        unfold heap_verify_header at hhd
        by_cases h1 : L.header.checksumOk
        · by_cases h2 : L.header.signatureOk
          · exact ⟨h1, h2⟩
          · rw [if_neg (by simpa using h1), if_pos (by simpa using h2)] at hhd
            exact absurd hhd (by decide)
        · rw [if_pos (by simpa using h1)] at hhd
          exact absurd hhd (by decide)
      constructor
      · rw [heapCheckZonesLoop_ok_iff]
        constructor
        · intro h
          refine ⟨by omega, hck.1, hck.2, fun j hj => ?_⟩
          exact (heap_verify_zone_ok_iff c (L.zones j)).mp (by simpa using h j hj)
        · rintro ⟨-, -, -, h⟩
          intro j hj
          simpa using (heap_verify_zone_ok_iff c (L.zones j)).mpr (h j hj)
      · intro r h
        exact heapCheckZonesLoop_values c L.zones _ _ _ h

/-- Witness for C5: a one-zone heap whose single zone is uninitialized
passes heap_check. -/
theorem C5_heap_check_witness :
    heap_check gOne cOne layoutOk 1 = some 0 :=
  (C5_heap_check_characterization gOne cOne layoutOk 1).1.mpr
    ⟨by decide, rfl, rfl, fun j hj => Or.inl rfl⟩

/-- C5 counterexample: a zone whose first chunk header has a valid type and
flags but size_idx 0 makes the verification loop of heap_verify_zone spin
forever, so heap_check neither returns 0 nor -1 on this region, refuting
the claim that every non-0 case returns -1.  The zone has magic 7 (the
correct magic), size_idx 1, and its chunk header 0 is FREE with flags 0 and
size_idx 0. -/
theorem C5_heap_check_counterexample :
    heapVerifyDiverges cOne zoneDiv 0 ∧ heap_check gOne cOne layoutDiv 1 = none := by
  have hdiv : heapVerifyDiverges cOne zoneDiv 0 := by
    intro fuel
    induction fuel with
    | zero => rfl
    | succ f ih =>
      rw [heapVerifyChunkLoop]
      rw [if_pos (by decide)]
      rw [if_neg (by decide)]
      exact ih
  refine ⟨hdiv, ?_⟩
  unfold heap_check
  rw [if_neg (by decide)]
  rw [if_neg (by decide)]
  have hmz : heap_max_zone gOne 1 = 1 := by
    unfold heap_max_zone
    rw [heapMaxZoneLoop_eq]
    decide
  rw [hmz]
  rw [heapCheckZonesLoop]
  have hz : heap_verify_zone cOne zoneDiv = none := by
    unfold heap_verify_zone
    rw [if_neg (by decide), if_neg (by decide)]
    rw [if_neg (by decide)]
    exact hdiv 2
  have hzs : layoutDiv.zones 0 = zoneDiv := rfl
  rw [hzs, hz]
  rfl

/-- C9: heap_end returns the first byte past the heap: the returned
address is the chunk array element at index size_idx of the last zone,
one element past chunk index size_idx - 1; and when the last zone's
size_idx is the one zone_calc_size_idx fixes at boot, that address is
base + heap_size rounded down to chunk granularity. -/
theorem C9_heap_end (a : AddrGeom) (base heap_size : Nat) (zones : Nat → Zone)
    (nzones : Nat) (h0 : 0 < nzones)
    (hp : 0 < (zones (nzones - 1)).header.size_idx)
    (hsidx : (zones (nzones - 1)).header.size_idx =
      zone_calc_size_idx a (nzones - 1) nzones heap_size)
    (hbound : (nzones - 1) * zoneMaxSize a +
      (a.zoneHdrSize + a.chunkHdrSize * a.maxChunk + a.heapHdrSize) ≤ heap_size) :
    heap_end a base zones nzones =
      chunkAddr a base (nzones - 1) ((zones (nzones - 1)).header.size_idx) ∧
    heap_end a base zones nzones =
      chunkAddr a base (nzones - 1) ((zones (nzones - 1)).header.size_idx - 1) +
        a.chunkSize ∧
    heap_end a base zones nzones =
      base + heap_size -
        ((heap_size - (nzones - 1) * zoneMaxSize a -
          (a.zoneHdrSize + a.chunkHdrSize * a.maxChunk + a.heapHdrSize)) %
            a.chunkSize) := by
  refine ⟨rfl, ?_, ?_⟩
  · unfold heap_end chunkAddr
    have h2 : (zones (nzones - 1)).header.size_idx * a.chunkSize =
        ((zones (nzones - 1)).header.size_idx - 1) * a.chunkSize + a.chunkSize := by
      obtain ⟨t, ht⟩ : ∃ t, (zones (nzones - 1)).header.size_idx = t + 1 :=
        ⟨(zones (nzones - 1)).header.size_idx - 1, by omega⟩
      rw [ht]
      simp [Nat.succ_mul]
    omega
  · unfold heap_end chunkAddr zoneStart
    rw [hsidx]
    unfold zone_calc_size_idx
    rw [if_neg (lt_irrefl _)]
    have hcm : a.chunkHdrSize * a.maxChunk = a.maxChunk * a.chunkHdrSize :=
      Nat.mul_comm _ _
    have hmd := Nat.div_add_mod
      ((heap_size - (nzones - 1) * zoneMaxSize a) -
        (a.zoneHdrSize + a.chunkHdrSize * a.maxChunk + a.heapHdrSize)) a.chunkSize
    have hcomm : (((heap_size - (nzones - 1) * zoneMaxSize a) -
          (a.zoneHdrSize + a.chunkHdrSize * a.maxChunk + a.heapHdrSize)) /
            a.chunkSize) * a.chunkSize =
        a.chunkSize * (((heap_size - (nzones - 1) * zoneMaxSize a) -
          (a.zoneHdrSize + a.chunkHdrSize * a.maxChunk + a.heapHdrSize)) /
            a.chunkSize) :=
      Nat.mul_comm _ _
    omega

/-- Witness for C9: one zone of geometry aW, heap size 50 = 18 bytes of
headers plus two chunks of 16 bytes, so the end is base + 50. -/
theorem C9_heap_end_witness :
    heap_end aW 100 zonesW 1 = chunkAddr aW 100 0 ((zonesW 0).header.size_idx) ∧
    heap_end aW 100 zonesW 1 =
      chunkAddr aW 100 0 ((zonesW 0).header.size_idx - 1) + aW.chunkSize ∧
    heap_end aW 100 zonesW 1 =
      100 + 50 - ((50 - 0 * zoneMaxSize aW -
        (aW.zoneHdrSize + aW.chunkHdrSize * aW.maxChunk + aW.heapHdrSize)) %
          aW.chunkSize) :=
  C9_heap_end aW 100 50 zonesW 1 (by decide) (by decide) (by decide) (by decide)

/-- If the prev lookup succeeds, the out block sits at
`chunk_id - hdr[chunk_id - 1].size_idx`, carries that header's size, keeps
the zone, and the input was not at chunk 0. -/
theorem adjacent_prev_some (z : Zone) (m : MemoryBlock) (p : MemoryBlock)
    (h : heap_get_adjacent_free_block z m true = some p) :
    p.zone_id = m.zone_id ∧
    p.chunk_id = m.chunk_id - (z.chunk_headers (m.chunk_id - 1)).size_idx ∧
    p.size_idx = (z.chunk_headers p.chunk_id).size_idx ∧
    p.block_off = 0 ∧
    (z.chunk_headers p.chunk_id).ctype = CHUNK_TYPE_FREE ∧
    m.chunk_id ≠ 0 := by
  unfold heap_get_adjacent_free_block at h
  rw [if_pos rfl] at h
  by_cases h0 : m.chunk_id = 0
  · rw [if_pos h0] at h
    exact absurd h (by simp)
  · rw [if_neg h0] at h
    simp only at h
    by_cases hf : (z.chunk_headers
        (m.chunk_id - (z.chunk_headers (m.chunk_id - 1)).size_idx)).ctype ≠
        CHUNK_TYPE_FREE
    · rw [if_pos hf] at h
      exact absurd h (by simp)
    · rw [if_neg hf] at h
      push_neg at hf
      obtain rfl := Option.some_inj.mp h.symm
      exact ⟨rfl, rfl, rfl, rfl, hf, h0⟩

/-- If the next lookup succeeds, the out block sits at
`chunk_id + hdr[chunk_id].size_idx`, carries that header's size, keeps the
zone, and the input did not end at the zone boundary. -/
theorem adjacent_next_some (z : Zone) (m : MemoryBlock) (n : MemoryBlock)
    (h : heap_get_adjacent_free_block z m false = some n) :
    n.zone_id = m.zone_id ∧
    n.chunk_id = m.chunk_id + (z.chunk_headers m.chunk_id).size_idx ∧
    n.size_idx = (z.chunk_headers n.chunk_id).size_idx ∧
    n.block_off = 0 ∧
    (z.chunk_headers n.chunk_id).ctype = CHUNK_TYPE_FREE ∧
    m.chunk_id + (z.chunk_headers m.chunk_id).size_idx ≠ z.header.size_idx := by
  unfold heap_get_adjacent_free_block at h
  rw [if_neg (by simp)] at h
  simp only at h
  by_cases h0 : m.chunk_id + (z.chunk_headers m.chunk_id).size_idx =
      z.header.size_idx
  · rw [if_pos h0] at h
    exact absurd h (by simp)
  · rw [if_neg h0] at h
    by_cases hf : (z.chunk_headers
        (m.chunk_id + (z.chunk_headers m.chunk_id).size_idx)).ctype ≠
        CHUNK_TYPE_FREE
    · rw [if_pos hf] at h
      exact absurd h (by simp)
    · rw [if_neg hf] at h
      push_neg at hf
      obtain rfl := Option.some_inj.mp h.symm
      exact ⟨rfl, rfl, rfl, rfl, hf, h0⟩

/-- A successful removableNeighbor is the adjacency result and was in the
bucket. -/
theorem removableNeighbor_some (z : Zone) (b : List MemoryBlock)
    (m : MemoryBlock) (pr : Bool) (x : MemoryBlock)
    (h : removableNeighbor z b m pr = some x) :
    heap_get_adjacent_free_block z m pr = some x ∧ x ∈ b := by
  unfold removableNeighbor at h
  cases ha : heap_get_adjacent_free_block z m pr with
  | none =>
    rw [ha] at h
    exact absurd h (by simp)
  | some y =>
    rw [ha] at h
    simp only at h
    by_cases hm : y ∈ b
    · rw [if_pos hm] at h
      obtain rfl := Option.some_inj.mp h
      exact ⟨rfl, hm⟩
    · rw [if_neg hm] at h
      exact absurd h (by simp)

/-- heap_coalesce_huge, rewritten through the merged-neighbor
definitions. -/
theorem heap_coalesce_huge_eq (z : Zone) (b : List MemoryBlock) (m : MemoryBlock) :
    heap_coalesce_huge z b m =
      (heap_coalesce [removableNeighbor z b m true, some m, mergedNext z b m],
        bucketAfterBoth z b m) := by
  unfold heap_coalesce_huge bucketAfterBoth mergedNext bucketAfterPrev
    removableNeighbor bucket_remove_block
  cases hP : heap_get_adjacent_free_block z m true with
  | none =>
    cases hN : heap_get_adjacent_free_block z m false with
    | none => simp [hP, hN]
    | some n =>
      by_cases hn : n ∈ b
      · simp [hP, hN, hn]
      · simp [hP, hN, hn]
  | some p =>
    by_cases hp : p ∈ b
    · cases hN : heap_get_adjacent_free_block z m false with
      | none => simp [hP, hN, hp]
      | some n =>
        by_cases hn : n ∈ b.erase p
        · simp [hP, hN, hp, hn]
        · simp [hP, hN, hp, hn]
    · cases hN : heap_get_adjacent_free_block z m false with
      | none => simp [hP, hN, hp]
      | some n =>
        by_cases hn : n ∈ b
        · simp [hP, hN, hp, hn]
        · simp [hP, hN, hp, hn]

/-- Evaluation of heap_coalesce on the three-slot list, prev and next
present. -/
theorem heap_coalesce_both (p m n : MemoryBlock) :
    heap_coalesce [some p, some m, some n] =
      ⟨p.chunk_id, p.zone_id, p.size_idx + (m.size_idx + (n.size_idx + 0)),
        p.block_off⟩ := rfl

/-- Evaluation of heap_coalesce, only next present. -/
theorem heap_coalesce_next (m n : MemoryBlock) :
    heap_coalesce [none, some m, some n] =
      ⟨m.chunk_id, m.zone_id, m.size_idx + (n.size_idx + 0), m.block_off⟩ := rfl

/-- Evaluation of heap_coalesce, only prev present. -/
theorem heap_coalesce_prev (p m : MemoryBlock) :
    heap_coalesce [some p, some m, none] =
      ⟨p.chunk_id, p.zone_id, p.size_idx + (m.size_idx + 0), p.block_off⟩ := rfl

/-- Evaluation of heap_coalesce, no neighbor. -/
theorem heap_coalesce_only (m : MemoryBlock) :
    heap_coalesce [none, some m, none] =
      ⟨m.chunk_id, m.zone_id, m.size_idx + 0, m.block_off⟩ := rfl

/-- C10: the adjacency lookups return ENOENT at the zone edges (chunk 0
for prev; chunk_id + size_idx reaching the zone size for next), and under
the layout invariants (spec §3 invariant 1: contiguous headers, with the
header before a chunk recording the extent of the previous top-level
chunk) heap_coalesce_huge keeps the zone of its input block and the
coalesced block lies entirely inside that zone. -/
theorem C10_adjacent_and_coalesce_in_zone (z : Zone) (b : List MemoryBlock)
    (m : MemoryBlock)
    (hmlt : m.chunk_id < z.header.size_idx)
    (hmsz : m.size_idx = (z.chunk_headers m.chunk_id).size_idx)
    (hfit : ∀ i, i < z.header.size_idx →
      i + (z.chunk_headers i).size_idx ≤ z.header.size_idx)
    (hfoot : 0 < m.chunk_id →
      (z.chunk_headers (m.chunk_id - 1)).size_idx ≤ m.chunk_id ∧
      (m.chunk_id - (z.chunk_headers (m.chunk_id - 1)).size_idx) +
        (z.chunk_headers
          (m.chunk_id - (z.chunk_headers (m.chunk_id - 1)).size_idx)).size_idx =
        m.chunk_id) :
    (m.chunk_id = 0 → heap_get_adjacent_free_block z m true = none) ∧
    (m.chunk_id + (z.chunk_headers m.chunk_id).size_idx = z.header.size_idx →
      heap_get_adjacent_free_block z m false = none) ∧
    (heap_coalesce_huge z b m).1.zone_id = m.zone_id ∧
    (heap_coalesce_huge z b m).1.chunk_id ≤ m.chunk_id ∧
    (heap_coalesce_huge z b m).1.chunk_id +
      (heap_coalesce_huge z b m).1.size_idx ≤ z.header.size_idx := by
  have hpart1 : m.chunk_id = 0 → heap_get_adjacent_free_block z m true = none := by
    intro h0
    unfold heap_get_adjacent_free_block
    rw [if_pos rfl, if_pos h0]
  have hpart2 : m.chunk_id + (z.chunk_headers m.chunk_id).size_idx =
      z.header.size_idx → heap_get_adjacent_free_block z m false = none := by
    intro hend
    unfold heap_get_adjacent_free_block
    rw [if_neg (by simp)]
    simp only
    rw [if_pos hend]
  have hmain : (heap_coalesce_huge z b m).1.zone_id = m.zone_id ∧
      (heap_coalesce_huge z b m).1.chunk_id ≤ m.chunk_id ∧
      (heap_coalesce_huge z b m).1.chunk_id +
        (heap_coalesce_huge z b m).1.size_idx ≤ z.header.size_idx := by
    rw [heap_coalesce_huge_eq]
    cases hP : removableNeighbor z b m true with
    | none =>
      cases hN : mergedNext z b m with
      | none =>
        rw [heap_coalesce_only]
        refine ⟨rfl, le_refl _, ?_⟩
        show m.chunk_id + (m.size_idx + 0) ≤ z.header.size_idx
        have h1 := hfit m.chunk_id hmlt
        omega
      | some n =>
        obtain ⟨hadj, -⟩ := removableNeighbor_some _ _ _ _ _ hN
        obtain ⟨hn1, hn2, hn3, -, -, hn6⟩ := adjacent_next_some _ _ _ hadj
        rw [heap_coalesce_next]
        have h1 := hfit m.chunk_id hmlt
        have h2 : n.chunk_id < z.header.size_idx := by omega
        have h3 := hfit n.chunk_id h2
        exact ⟨hn1 ▸ rfl, le_refl _, by
          show m.chunk_id + (m.size_idx + (n.size_idx + 0)) ≤ z.header.size_idx
          omega⟩
    | some p =>
      obtain ⟨hadjp, -⟩ := removableNeighbor_some _ _ _ _ _ hP
      obtain ⟨hp1, hp2, hp3, -, -, hp6⟩ := adjacent_prev_some _ _ _ hadjp
      obtain ⟨hf1, hf2⟩ := hfoot (Nat.pos_of_ne_zero hp6)
      rw [← hp2] at hf2
      rw [← hp3] at hf2
      cases hN : mergedNext z b m with
      | none =>
        rw [heap_coalesce_prev]
        refine ⟨?_, ?_, ?_⟩
        · show p.zone_id = m.zone_id
          exact hp1
        · show p.chunk_id ≤ m.chunk_id
          omega
        · show p.chunk_id + (p.size_idx + (m.size_idx + 0)) ≤ z.header.size_idx
          have h1 := hfit m.chunk_id hmlt
          omega
      | some n =>
        obtain ⟨hadjn, -⟩ := removableNeighbor_some _ _ _ _ _ hN
        obtain ⟨hn1, hn2, hn3, -, -, hn6⟩ := adjacent_next_some _ _ _ hadjn
        rw [heap_coalesce_both]
        have h1 := hfit m.chunk_id hmlt
        have h2 : n.chunk_id < z.header.size_idx := by omega
        have h3 := hfit n.chunk_id h2
        refine ⟨?_, ?_, ?_⟩
        · show p.zone_id = m.zone_id
          exact hp1
        · show p.chunk_id ≤ m.chunk_id
          omega
        · show p.chunk_id + (p.size_idx + (m.size_idx + (n.size_idx + 0))) ≤
            z.header.size_idx
          omega
  exact ⟨hpart1, hpart2, hmain.1, hmain.2.1, hmain.2.2⟩

/-- Witness for C10: the three-chunk zone zWit, middle block mWit, both
neighbors in the bucket; both edge conditions and the containment hold. -/
theorem C10_adjacent_and_coalesce_in_zone_witness :
    (mWit.chunk_id = 0 → heap_get_adjacent_free_block zWit mWit true = none) ∧
    (mWit.chunk_id + (zWit.chunk_headers mWit.chunk_id).size_idx =
      zWit.header.size_idx →
      heap_get_adjacent_free_block zWit mWit false = none) ∧
    (heap_coalesce_huge zWit bWit mWit).1.zone_id = mWit.zone_id ∧
    (heap_coalesce_huge zWit bWit mWit).1.chunk_id ≤ mWit.chunk_id ∧
    (heap_coalesce_huge zWit bWit mWit).1.chunk_id +
      (heap_coalesce_huge zWit bWit mWit).1.size_idx ≤ zWit.header.size_idx :=
  C10_adjacent_and_coalesce_in_zone zWit bWit mWit (by decide) (by decide)
    (by decide) (by decide)

/-- C4: heap_free_chunk_reuse inserts into the bucket the block that
covers m together with each adjacent FREE neighbor that was removed from
the container: its size_idx is the sum of the merged sizes, its chunk_id
is that of the leftmost merged chunk, the bucket afterwards is exactly
that block on top of the bucket left by the removals, and prep_hdr(FREE)
is written exactly when coalescing changed the size (equivalently, when a
neighbor was merged, neighbor extents being positive). -/
theorem C4_heap_free_chunk_reuse (z : Zone) (b : List MemoryBlock)
    (m : MemoryBlock)
    (hmlt : m.chunk_id < z.header.size_idx)
    (hext : m.chunk_id + (z.chunk_headers m.chunk_id).size_idx ≤
      z.header.size_idx)
    (hpos : ∀ i, i < z.header.size_idx → 0 < (z.chunk_headers i).size_idx) :
    (heap_free_chunk_reuse z b m).block.size_idx =
      m.size_idx + optSize (removableNeighbor z b m true) +
        optSize (mergedNext z b m) ∧
    (heap_free_chunk_reuse z b m).block.zone_id = m.zone_id ∧
    (heap_free_chunk_reuse z b m).block.chunk_id =
      mergeStartChunk (removableNeighbor z b m true) m ∧
    (heap_free_chunk_reuse z b m).bucket =
      (heap_free_chunk_reuse z b m).block :: bucketAfterBoth z b m ∧
    ((heap_free_chunk_reuse z b m).prepHdrFree = true ↔
      (removableNeighbor z b m true ≠ none ∨ mergedNext z b m ≠ none)) := by
  unfold heap_free_chunk_reuse bucket_insert_block
  rw [heap_coalesce_huge_eq]
  cases hP : removableNeighbor z b m true with
  | none =>
    cases hN : mergedNext z b m with
    | none =>
      rw [heap_coalesce_only]
      refine ⟨?_, rfl, rfl, rfl, ?_⟩
      · show m.size_idx + 0 = m.size_idx + optSize none + optSize none
        simp [optSize]
      · show decide (m.size_idx + 0 ≠ m.size_idx) = true ↔
          ((none : Option MemoryBlock) ≠ none ∨ (none : Option MemoryBlock) ≠ none)
        simp
    | some n =>
      obtain ⟨hadj, -⟩ := removableNeighbor_some _ _ _ _ _ hN
      obtain ⟨hn1, hn2, hn3, -, -, hn6⟩ := adjacent_next_some _ _ _ hadj
      have h2 : n.chunk_id < z.header.size_idx := by omega
      have h3 := hpos n.chunk_id h2
      rw [heap_coalesce_next]
      refine ⟨?_, rfl, rfl, rfl, ?_⟩
      · show m.size_idx + (n.size_idx + 0) =
          m.size_idx + optSize none + optSize (some n)
        simp [optSize]
      · show decide (m.size_idx + (n.size_idx + 0) ≠ m.size_idx) = true ↔
          ((none : Option MemoryBlock) ≠ none ∨ some n ≠ none)
        simp only [decide_eq_true_eq]
        constructor
        · intro h
          exact Or.inr (by simp)
        · intro h
          omega
  | some p =>
    obtain ⟨hadjp, -⟩ := removableNeighbor_some _ _ _ _ _ hP
    obtain ⟨hp1, hp2, hp3, -, -, hp6⟩ := adjacent_prev_some _ _ _ hadjp
    have hplt : p.chunk_id < z.header.size_idx := by omega
    have hpsz := hpos p.chunk_id hplt
    cases hN : mergedNext z b m with
    | none =>
      rw [heap_coalesce_prev]
      refine ⟨?_, hp1 ▸ rfl, rfl, rfl, ?_⟩
      · show p.size_idx + (m.size_idx + 0) =
          m.size_idx + optSize (some p) + optSize none
        simp [optSize]
        omega
      · show decide (p.size_idx + (m.size_idx + 0) ≠ m.size_idx) = true ↔
          (some p ≠ none ∨ (none : Option MemoryBlock) ≠ none)
        simp only [decide_eq_true_eq]
        constructor
        · intro h
          exact Or.inl (by simp)
        · intro h
          omega
    | some n =>
      obtain ⟨hadjn, -⟩ := removableNeighbor_some _ _ _ _ _ hN
      obtain ⟨hn1, hn2, hn3, -, -, hn6⟩ := adjacent_next_some _ _ _ hadjn
      have h2 : n.chunk_id < z.header.size_idx := by omega
      have h3 := hpos n.chunk_id h2
      rw [heap_coalesce_both]
      refine ⟨?_, hp1 ▸ rfl, rfl, rfl, ?_⟩
      · show p.size_idx + (m.size_idx + (n.size_idx + 0)) =
          m.size_idx + optSize (some p) + optSize (some n)
        simp [optSize]
        omega
      · show decide (p.size_idx + (m.size_idx + (n.size_idx + 0)) ≠ m.size_idx) =
          true ↔ (some p ≠ none ∨ some n ≠ none)
        simp only [decide_eq_true_eq]
        constructor
        · intro h
          exact Or.inl (by simp)
        · intro h
          omega

/-- Witness for C4: on zWit, mWit, bWit both neighbors merge; the inserted
block has size 3, starts at chunk 0, and the FREE header is written since
the size changed from 1 to 3. -/
theorem C4_heap_free_chunk_reuse_witness :
    (heap_free_chunk_reuse zWit bWit mWit).block.size_idx =
      mWit.size_idx + optSize (removableNeighbor zWit bWit mWit true) +
        optSize (mergedNext zWit bWit mWit) ∧
    (heap_free_chunk_reuse zWit bWit mWit).block.zone_id = mWit.zone_id ∧
    (heap_free_chunk_reuse zWit bWit mWit).block.chunk_id =
      mergeStartChunk (removableNeighbor zWit bWit mWit true) mWit ∧
    (heap_free_chunk_reuse zWit bWit mWit).bucket =
      (heap_free_chunk_reuse zWit bWit mWit).block :: bucketAfterBoth zWit bWit mWit ∧
    ((heap_free_chunk_reuse zWit bWit mWit).prepHdrFree = true ↔
      (removableNeighbor zWit bWit mWit true ≠ none ∨
        mergedNext zWit bWit mWit ≠ none)) :=
  C4_heap_free_chunk_reuse zWit bWit mWit (by decide) (by decide) (by decide)

/-- The reclaim-garbage fold returns 0 exactly when the accumulator is
already 0 or some present recycler reports a nonempty empty-runs
vector. -/
theorem heap_reclaim_garbage_fold (f : Nat → Option RecyclerView → Nat)
    (hf : f = fun ret o => match o with
      | none => ret
      | some r => if heap_recycle_unused_ret r = 0 then 0 else ret) :
    ∀ (rs : List (Option RecyclerView)) (acc : Nat),
      rs.foldl f acc = 0 ↔
        (acc = 0 ∨ ∃ v, some v ∈ rs ∧ v.emptyRuns ≠ []) := by
  intro rs
  induction rs with
  | nil =>
    intro acc
    simp
  | cons o rest ih =>
    intro acc
    cases o with
    | none =>
      rw [List.foldl_cons, hf]
      simp only
      rw [← hf, ih acc]
      simp [List.mem_cons]
    | some r =>
      rw [List.foldl_cons, hf]
      simp only
      by_cases hr : heap_recycle_unused_ret r = 0
      · rw [if_pos hr, ← hf, ih 0]
        have hne : r.emptyRuns ≠ [] := by
          unfold heap_recycle_unused_ret at hr
          by_cases h0 : r.emptyRuns.length = 0
          · rw [if_pos h0] at hr
            exact absurd hr (by decide)
          · intro hnil
            exact h0 (by rw [hnil]; rfl)
        constructor
        · intro _
          exact Or.inr ⟨r, by simp, hne⟩
        · intro _
          exact Or.inl rfl
      · rw [if_neg hr, ← hf, ih acc]
        have hemp : r.emptyRuns = [] := by
          unfold heap_recycle_unused_ret at hr
          by_cases h0 : r.emptyRuns.length = 0
          · exact List.length_eq_zero.mp h0
          · rw [if_neg h0] at hr
            exact absurd rfl hr
        constructor
        · rintro (h | ⟨v, hv, hvne⟩)
          · exact Or.inl h
          · exact Or.inr ⟨v, by simp [List.mem_cons, hv], hvne⟩
        · rintro (h | ⟨v, hv, hvne⟩)
          · exact Or.inl h
          · rcases List.mem_cons.mp hv with he | hm
            · obtain rfl := Option.some_inj.mp he
              exact absurd hemp hvne
            · exact Or.inr ⟨v, hm, hvne⟩

/-- heap_reclaim_garbage succeeds exactly when some present recycler
reports an empty run. -/
theorem heap_reclaim_garbage_ret_iff (rs : List (Option RecyclerView)) :
    heap_reclaim_garbage_ret rs = 0 ↔ ∃ v, some v ∈ rs ∧ v.emptyRuns ≠ [] := by
  unfold heap_reclaim_garbage_ret
  rw [heap_reclaim_garbage_fold _ rfl rs ENOMEM]
  have : ENOMEM ≠ 0 := by decide
  constructor
  · rintro (h | h)
    · exact absurd h this
    · exact h
  · intro h
    exact Or.inr h

/-- C2: heap_populate_bucket returns ENOMEM iff zones_exhausted = nzones
at entry (and then changes nothing); otherwise it returns 0, increments
zones_exhausted by one, initializes the zone header exactly when the magic
was unset, and reclaims that zone's garbage; zones_exhausted stays at most
nzones.  heap_ensure_huge_bucket_filled returns 0 iff reclaiming recycler
garbage succeeds for some class or one of its two populate attempts
returns 0, and ENOMEM otherwise. -/
theorem C2_populate_and_ensure_huge (c : HeapConsts)
    (rs : List (Option RecyclerView)) (st : PopulateSt)
    (hinv : st.zones_exhausted ≤ st.nzones) :
    ((heap_populate_bucket c st).ret = ENOMEM ↔
      st.zones_exhausted = st.nzones) ∧
    (st.zones_exhausted ≠ st.nzones →
      (heap_populate_bucket c st).ret = 0 ∧
      (heap_populate_bucket c st).st.zones_exhausted =
        st.zones_exhausted + 1 ∧
      (heap_populate_bucket c st).st.nzones = st.nzones ∧
      ((heap_populate_bucket c st).initializedZone = some st.zones_exhausted ↔
        st.zoneMagic st.zones_exhausted ≠ c.zoneMagic) ∧
      (heap_populate_bucket c st).reclaimedZone = some st.zones_exhausted) ∧
    (st.zones_exhausted = st.nzones →
      (heap_populate_bucket c st).st = st ∧
      (heap_populate_bucket c st).reclaimedZone = none) ∧
    (heap_populate_bucket c st).st.zones_exhausted ≤
      (heap_populate_bucket c st).st.nzones ∧
    ((heap_ensure_huge_bucket_filled c rs st).1 = 0 ↔
      (heap_reclaim_garbage_ret rs = 0 ∨ (heap_populate_bucket c st).ret = 0 ∨
        (heap_populate_bucket c (heap_populate_bucket c st).st).ret = 0)) ∧
    ((heap_ensure_huge_bucket_filled c rs st).1 = 0 ∨
      (heap_ensure_huge_bucket_filled c rs st).1 = ENOMEM) ∧
    (heap_reclaim_garbage_ret rs = 0 ↔
      ∃ v, some v ∈ rs ∧ v.emptyRuns ≠ []) := by
  by_cases hz : st.zones_exhausted = st.nzones
  · have he : heap_populate_bucket c st = ⟨ENOMEM, st, none, none⟩ := by
      unfold heap_populate_bucket
      rw [if_pos hz]
    have hens : heap_ensure_huge_bucket_filled c rs st =
        (if heap_reclaim_garbage_ret rs = 0 then (0, st) else (ENOMEM, st)) := by
      by_cases hrg : heap_reclaim_garbage_ret rs = 0
      · rw [if_pos hrg]
        unfold heap_ensure_huge_bucket_filled
        rw [if_pos hrg]
      · rw [if_neg hrg]
        unfold heap_ensure_huge_bucket_filled
        rw [if_neg hrg]
        simp only [he]
        norm_num [ENOMEM]
    refine ⟨?_, ?_, ?_, ?_, ?_, ?_, heap_reclaim_garbage_ret_iff rs⟩
    · rw [he]
      exact ⟨fun _ => hz, fun _ => rfl⟩
    · intro h
      exact absurd hz h
    · intro _
      rw [he]
      exact ⟨rfl, rfl⟩
    · rw [he]
      exact hinv
    · rw [hens]
      by_cases hrg : heap_reclaim_garbage_ret rs = 0
      · rw [if_pos hrg]
        constructor
        · intro _
          exact Or.inl hrg
        · intro _
          rfl
      · rw [if_neg hrg]
        constructor
        · intro h
          exact absurd h (by norm_num [ENOMEM])
        · rintro (h | h | h)
          · exact absurd h hrg
          · simp only [he] at h
            exact absurd h (by norm_num [ENOMEM])
          · simp only [he] at h
            exact absurd h (by norm_num [ENOMEM])
    · rw [hens]
      by_cases hrg : heap_reclaim_garbage_ret rs = 0
      · rw [if_pos hrg]
        exact Or.inl rfl
      · rw [if_neg hrg]
        exact Or.inr rfl
  · have he : heap_populate_bucket c st =
        ⟨0,
          { st with
            zones_exhausted := st.zones_exhausted + 1
            zoneMagic := fun i =>
              if (st.zoneMagic st.zones_exhausted ≠ c.zoneMagic) ∧
                  i = st.zones_exhausted then
                c.zoneMagic
              else st.zoneMagic i },
          if st.zoneMagic st.zones_exhausted ≠ c.zoneMagic then
            some st.zones_exhausted
          else none,
          some st.zones_exhausted⟩ := by
      unfold heap_populate_bucket
      rw [if_neg hz]
    have h0 : (heap_populate_bucket c st).ret = 0 := by
      rw [he]
    have hens : heap_ensure_huge_bucket_filled c rs st =
        (0, if heap_reclaim_garbage_ret rs = 0 then st
            else (heap_populate_bucket c st).st) := by
      by_cases hrg : heap_reclaim_garbage_ret rs = 0
      · rw [if_pos hrg]
        unfold heap_ensure_huge_bucket_filled
        rw [if_pos hrg]
      · rw [if_neg hrg]
        unfold heap_ensure_huge_bucket_filled
        rw [if_neg hrg]
        simp only [h0]
        rfl
    refine ⟨?_, ?_, ?_, ?_, ?_, ?_, heap_reclaim_garbage_ret_iff rs⟩
    · rw [h0]
      constructor
      · intro h
        exact absurd h.symm (by norm_num [ENOMEM])
      · intro h
        exact absurd h hz
    · intro _
      refine ⟨h0, ?_, ?_, ?_, ?_⟩
      · rw [he]
      · rw [he]
      · rw [he]
        by_cases hni : st.zoneMagic st.zones_exhausted ≠ c.zoneMagic
        · rw [if_pos hni]
          exact ⟨fun _ => hni, fun _ => rfl⟩
        · rw [if_neg hni]
          constructor
          · intro h
            exact absurd h (by simp)
          · intro h
            exact absurd h hni
      · rw [he]
    · intro h
      exact absurd h hz
    · rw [he]
      show st.zones_exhausted + 1 ≤ st.nzones
      omega
    · rw [hens]
      constructor
      · intro _
        exact Or.inr (Or.inl h0)
      · intro _
        rfl
    · rw [hens]
      exact Or.inl rfl

/-- Witness for C2: two zones with one exhausted; populate succeeds and
the second populate attempt keeps the counter within bounds. -/
theorem C2_populate_and_ensure_huge_witness :
    ((heap_populate_bucket cOne stW).ret = ENOMEM ↔
      stW.zones_exhausted = stW.nzones) ∧
    (stW.zones_exhausted ≠ stW.nzones →
      (heap_populate_bucket cOne stW).ret = 0 ∧
      (heap_populate_bucket cOne stW).st.zones_exhausted =
        stW.zones_exhausted + 1 ∧
      (heap_populate_bucket cOne stW).st.nzones = stW.nzones ∧
      ((heap_populate_bucket cOne stW).initializedZone =
          some stW.zones_exhausted ↔
        stW.zoneMagic stW.zones_exhausted ≠ cOne.zoneMagic) ∧
      (heap_populate_bucket cOne stW).reclaimedZone =
        some stW.zones_exhausted) ∧
    (stW.zones_exhausted = stW.nzones →
      (heap_populate_bucket cOne stW).st = stW ∧
      (heap_populate_bucket cOne stW).reclaimedZone = none) ∧
    (heap_populate_bucket cOne stW).st.zones_exhausted ≤
      (heap_populate_bucket cOne stW).st.nzones ∧
    ((heap_ensure_huge_bucket_filled cOne rsW stW).1 = 0 ↔
      (heap_reclaim_garbage_ret rsW = 0 ∨
        (heap_populate_bucket cOne stW).ret = 0 ∨
        (heap_populate_bucket cOne
          (heap_populate_bucket cOne stW).st).ret = 0)) ∧
    ((heap_ensure_huge_bucket_filled cOne rsW stW).1 = 0 ∨
      (heap_ensure_huge_bucket_filled cOne rsW stW).1 = ENOMEM) ∧
    (heap_reclaim_garbage_ret rsW = 0 ↔
      ∃ v, some v ∈ rsW ∧ v.emptyRuns ≠ []) :=
  C2_populate_and_ensure_huge cOne rsW stW (by decide)

/-- C3: heap_ensure_run_bucket_filled first detaches the active run
(failing with ENOMEM if the detach fails) and discards it exactly when it
was empty; then, in order, it tries recycler reuse, zone population
followed by a second reuse, carving a fresh run of rdsc.size_idx chunks,
and one final reuse; each attempt that returns success ends the call with
0 and the attached run, later attempts untouched; and the result is
ENOMEM exactly when the detach failed or all four attempts failed. -/
theorem C3_ensure_run_bucket_filled (aclass : AllocClassView)
    (detach : Option (MemoryBlock × Bool)) (o1 o2 o3 : ReuseOracle)
    (carve : Nat → Option MemoryBlock) :
    (detach = none →
      heap_ensure_run_bucket_filled aclass detach o1 o2 o3 carve =
        ⟨ENOMEM, none, none, false, false⟩) ∧
    (∀ dm, detach = some (dm, true) →
      (heap_ensure_run_bucket_filled aclass detach o1 o2 o3 carve).discarded =
        some dm) ∧
    (∀ dm, detach = some (dm, false) →
      (heap_ensure_run_bucket_filled aclass detach o1 o2 o3 carve).discarded =
        none) ∧
    (∀ dm de, detach = some (dm, de) →
      ((heap_reuse_from_recycler o1 false).1 = 0 →
        heap_ensure_run_bucket_filled aclass detach o1 o2 o3 carve =
          ⟨0, (heap_reuse_from_recycler o1 false).2,
            if de then some dm else none, false, false⟩) ∧
      ((heap_reuse_from_recycler o1 false).1 ≠ 0 →
        (heap_reuse_from_recycler o2 false).1 = 0 →
        heap_ensure_run_bucket_filled aclass detach o1 o2 o3 carve =
          ⟨0, (heap_reuse_from_recycler o2 false).2,
            if de then some dm else none, true, false⟩) ∧
      ((heap_reuse_from_recycler o1 false).1 ≠ 0 →
        (heap_reuse_from_recycler o2 false).1 ≠ 0 →
        ∀ cm, carve aclass.rdsc_size_idx = some cm →
        heap_ensure_run_bucket_filled aclass detach o1 o2 o3 carve =
          ⟨0, some cm, if de then some dm else none, true, true⟩) ∧
      ((heap_reuse_from_recycler o1 false).1 ≠ 0 →
        (heap_reuse_from_recycler o2 false).1 ≠ 0 →
        carve aclass.rdsc_size_idx = none →
        (heap_reuse_from_recycler o3 false).1 = 0 →
        heap_ensure_run_bucket_filled aclass detach o1 o2 o3 carve =
          ⟨0, (heap_reuse_from_recycler o3 false).2,
            if de then some dm else none, true, false⟩)) ∧
    ((heap_ensure_run_bucket_filled aclass detach o1 o2 o3 carve).attached ≠
        none →
      (heap_ensure_run_bucket_filled aclass detach o1 o2 o3 carve).ret = 0) ∧
    ((heap_ensure_run_bucket_filled aclass detach o1 o2 o3 carve).ret =
        ENOMEM ↔
      (detach = none ∨
        ((heap_reuse_from_recycler o1 false).1 ≠ 0 ∧
          (heap_reuse_from_recycler o2 false).1 ≠ 0 ∧
          carve aclass.rdsc_size_idx = none ∧
          (heap_reuse_from_recycler o3 false).1 ≠ 0))) := by
  cases detach with
  | none =>
    refine ⟨fun _ => rfl, ?_, ?_, ?_, ?_, ?_⟩
    · intro dm h
      exact absurd h (by simp)
    · intro dm h
      exact absurd h (by simp)
    · intro dm de h
      exact absurd h (by simp)
    · intro h
      exact absurd rfl h
    · constructor
      · intro _
        exact Or.inl rfl
      · intro _
        rfl
  | some pair =>
    obtain ⟨dm, de⟩ := pair
    have hrun : heap_ensure_run_bucket_filled aclass (some (dm, de)) o1 o2 o3
        carve =
        (if (heap_reuse_from_recycler o1 false).1 = 0 then
          ⟨0, (heap_reuse_from_recycler o1 false).2,
            if de then some dm else none, false, false⟩
        else if (heap_reuse_from_recycler o2 false).1 = 0 then
          ⟨0, (heap_reuse_from_recycler o2 false).2,
            if de then some dm else none, true, false⟩
        else
          match carve aclass.rdsc_size_idx with
          | some cm => ⟨0, some cm, if de then some dm else none, true, true⟩
          | none =>
            if (heap_reuse_from_recycler o3 false).1 = 0 then
              ⟨0, (heap_reuse_from_recycler o3 false).2,
                if de then some dm else none, true, false⟩
            else
              ⟨ENOMEM, none, if de then some dm else none, true, false⟩) := by
      unfold heap_ensure_run_bucket_filled
      rfl
    rw [hrun]
    by_cases h1 : (heap_reuse_from_recycler o1 false).1 = 0
    · rw [if_pos h1]
      refine ⟨?_, ?_, ?_, ?_, ?_, ?_⟩
      · intro h
        exact absurd h (by simp)
      · intro dm2 h
        obtain ⟨rfl, hde⟩ : dm2 = dm ∧ de = true := by
          have := Option.some_inj.mp h
          exact ⟨congrArg Prod.fst this |>.symm, congrArg Prod.snd this⟩
        rw [hde]
        rfl
      · intro dm2 h
        obtain ⟨rfl, hde⟩ : dm2 = dm ∧ de = false := by
          have := Option.some_inj.mp h
          exact ⟨congrArg Prod.fst this |>.symm, congrArg Prod.snd this⟩
        rw [hde]
        rfl
      · intro dm2 de2 h
        obtain ⟨hdm, hde⟩ : dm = dm2 ∧ de = de2 := by
          have := Option.some_inj.mp h
          exact ⟨congrArg Prod.fst this, congrArg Prod.snd this⟩
        refine ⟨fun _ => by rw [hdm, hde], fun hc _ => absurd h1 hc,
          fun hc _ _ _ => absurd h1 hc, fun hc _ _ _ => absurd h1 hc⟩
      · intro _
        rfl
      · constructor
        · intro h
          exact absurd h (by norm_num [ENOMEM])
        · rintro (h | ⟨hc, -⟩)
          · exact absurd h (by simp)
          · exact absurd h1 hc
    · rw [if_neg h1]
      by_cases h2 : (heap_reuse_from_recycler o2 false).1 = 0
      · rw [if_pos h2]
        refine ⟨?_, ?_, ?_, ?_, ?_, ?_⟩
        · intro h
          exact absurd h (by simp)
        · intro dm2 h
          obtain ⟨rfl, hde⟩ : dm2 = dm ∧ de = true := by
            have := Option.some_inj.mp h
            exact ⟨congrArg Prod.fst this |>.symm, congrArg Prod.snd this⟩
          rw [hde]
          rfl
        · intro dm2 h
          obtain ⟨rfl, hde⟩ : dm2 = dm ∧ de = false := by
            have := Option.some_inj.mp h
            exact ⟨congrArg Prod.fst this |>.symm, congrArg Prod.snd this⟩
          rw [hde]
          rfl
        · intro dm2 de2 h
          obtain ⟨hdm, hde⟩ : dm = dm2 ∧ de = de2 := by
            have := Option.some_inj.mp h
            exact ⟨congrArg Prod.fst this, congrArg Prod.snd this⟩
          refine ⟨fun hc => absurd hc h1, fun _ _ => by rw [hdm, hde],
            fun _ hc _ _ => absurd h2 hc, fun _ hc _ _ => absurd h2 hc⟩
        · intro _
          rfl
        · constructor
          · intro h
            exact absurd h (by norm_num [ENOMEM])
          · rintro (h | ⟨-, hc, -⟩)
            · exact absurd h (by simp)
            · exact absurd h2 hc
      · rw [if_neg h2]
        cases hc : carve aclass.rdsc_size_idx with
        | some cm =>
          refine ⟨?_, ?_, ?_, ?_, ?_, ?_⟩
          · intro h
            exact absurd h (by simp)
          · intro dm2 h
            obtain ⟨rfl, hde⟩ : dm2 = dm ∧ de = true := by
              have := Option.some_inj.mp h
              exact ⟨congrArg Prod.fst this |>.symm,
                congrArg Prod.snd this⟩
            rw [hde]
            rfl
          · intro dm2 h
            obtain ⟨rfl, hde⟩ : dm2 = dm ∧ de = false := by
              have := Option.some_inj.mp h
              exact ⟨congrArg Prod.fst this |>.symm,
                congrArg Prod.snd this⟩
            rw [hde]
            rfl
          · intro dm2 de2 h
            obtain ⟨hdm, hde⟩ : dm = dm2 ∧ de = de2 := by
              have := Option.some_inj.mp h
              exact ⟨congrArg Prod.fst this, congrArg Prod.snd this⟩
            refine ⟨fun hcc => absurd hcc h1, fun _ hcc => absurd hcc h2,
              ?_, ?_⟩
            · intro _ _ cm2 hcm
              obtain rfl := Option.some_inj.mp hcm
              rw [hdm, hde]
            · intro _ _ hnone _
              exact absurd hnone (by simp)
          · intro _
            rfl
          · constructor
            · intro h
              exact absurd h (by norm_num [ENOMEM])
            · rintro (h | ⟨-, -, hnone, -⟩)
              · exact absurd h (by simp)
              · exact absurd hnone (by simp)
        | none =>
          by_cases h3 : (heap_reuse_from_recycler o3 false).1 = 0
          · rw [if_pos h3]
            refine ⟨?_, ?_, ?_, ?_, ?_, ?_⟩
            · intro h
              exact absurd h (by simp)
            · intro dm2 h
              obtain ⟨rfl, hde⟩ : dm2 = dm ∧ de = true := by
                have := Option.some_inj.mp h
                exact ⟨congrArg Prod.fst this |>.symm,
                  congrArg Prod.snd this⟩
              rw [hde]
              rfl
            · intro dm2 h
              obtain ⟨rfl, hde⟩ : dm2 = dm ∧ de = false := by
                have := Option.some_inj.mp h
                exact ⟨congrArg Prod.fst this |>.symm,
                  congrArg Prod.snd this⟩
              rw [hde]
              rfl
            · intro dm2 de2 h
              obtain ⟨hdm, hde⟩ : dm = dm2 ∧ de = de2 := by
                have := Option.some_inj.mp h
                exact ⟨congrArg Prod.fst this, congrArg Prod.snd this⟩
              refine ⟨fun hcc => absurd hcc h1, fun _ hcc => absurd hcc h2,
                ?_, fun _ _ _ _ => by rw [hdm, hde]⟩
              intro _ _ cm2 hcm
              exact absurd hcm (by simp)
            · intro _
              rfl
            · constructor
              · intro h
                exact absurd h (by norm_num [ENOMEM])
              · rintro (h | ⟨-, -, -, hcc⟩)
                · exact absurd h (by simp)
                · exact absurd h3 hcc
          · rw [if_neg h3]
            refine ⟨?_, ?_, ?_, ?_, ?_, ?_⟩
            · intro h
              exact absurd h (by simp)
            · intro dm2 h
              obtain ⟨rfl, hde⟩ : dm2 = dm ∧ de = true := by
                have := Option.some_inj.mp h
                exact ⟨congrArg Prod.fst this |>.symm,
                  congrArg Prod.snd this⟩
              rw [hde]
              rfl
            · intro dm2 h
              obtain ⟨rfl, hde⟩ : dm2 = dm ∧ de = false := by
                have := Option.some_inj.mp h
                exact ⟨congrArg Prod.fst this |>.symm,
                  congrArg Prod.snd this⟩
              rw [hde]
              rfl
            · intro dm2 de2 h
              refine ⟨fun hcc => absurd hcc h1, fun _ hcc => absurd hcc h2,
                ?_, fun _ _ _ hcc => absurd hcc h3⟩
              intro _ _ cm2 hcm
              exact absurd hcm (by simp)
            · intro h
              exact absurd rfl h
            · constructor
              · intro _
                exact Or.inr ⟨h1, h2, rfl, h3⟩
              · intro _
                rfl

/-- Witness for C3: detach succeeds with an empty run, the first two reuse
attempts fail, and the carve succeeds, so a fresh run is attached. -/
theorem C3_ensure_run_bucket_filled_witness :
    heap_ensure_run_bucket_filled ⟨3, ClassType.run, 2, 8, 4⟩
        (some (⟨5, 0, 4, 0⟩, true)) ⟨true, none, none⟩ ⟨true, none, none⟩
        ⟨true, none, none⟩ (fun _ => some ⟨6, 0, 4, 0⟩) =
      ⟨0, some ⟨6, 0, 4, 0⟩, some ⟨5, 0, 4, 0⟩, true, true⟩ :=
  ((C3_ensure_run_bucket_filled ⟨3, ClassType.run, 2, 8, 4⟩
      (some (⟨5, 0, 4, 0⟩, true)) ⟨true, none, none⟩ ⟨true, none, none⟩
      ⟨true, none, none⟩ (fun _ => some ⟨6, 0, 4, 0⟩)).2.2.2.1
    ⟨5, 0, 4, 0⟩ true rfl).2.2.1 (by decide) (by decide) ⟨6, 0, 4, 0⟩ rfl

/-- C6 counterexample: a matched run-class run that is not fully empty
(3 of 10 cells free) whose recycler cannot be obtained: heap_reclaim_run
returns 0 but inserts no element into the recycler, contrary to the claim
that the element is always inserted in this case. -/
theorem C6_heap_reclaim_run_counterexample :
    heap_reclaim_run (some ⟨5, ClassType.run, 0, 10, 1⟩) 3 20 false true =
      ⟨0, false⟩ ∧ (3 : Nat) ≠ 10 := by
  exact ⟨rfl, by decide⟩

/-- C6 amended: heap_reclaim_run returns 1 exactly when the run is fully
empty — free count equal to the matched class's nallocs, or, with no
matching class, to the bitmap's bit count; when a class matches and the
run is not fully empty it returns 0 and inserts an element into the
class's recycler provided the recycler can be obtained and the put
succeeds (otherwise the loss is only logged). -/
theorem C6_heap_reclaim_run_characterization (cls : Option AllocClassView)
    (e_free nbits : Nat) (ra putOk : Bool) :
    ((heap_reclaim_run cls e_free nbits ra putOk).ret = 1 ↔
      ((∃ cl, cls = some cl ∧ e_free = cl.nallocs) ∨
        (cls = none ∧ e_free = nbits))) ∧
    (∀ cl, cls = some cl → e_free ≠ cl.nallocs →
      (heap_reclaim_run cls e_free nbits ra putOk).ret = 0 ∧
      ((heap_reclaim_run cls e_free nbits ra putOk).putElement = true ↔
        (ra = true ∧ putOk = true))) := by
  cases cls with
  | none =>
    have hval : heap_reclaim_run none e_free nbits ra putOk =
        ⟨if e_free = nbits then 1 else 0, false⟩ := rfl
    constructor
    · rw [hval]
      by_cases he : e_free = nbits
      · rw [if_pos he]
        constructor
        · intro _
          exact Or.inr ⟨rfl, he⟩
        · intro _
          rfl
      · rw [if_neg he]
        constructor
        · intro h
          exact absurd h (by decide)
        · rintro (⟨cl, hcl, -⟩ | ⟨-, he2⟩)
          · exact absurd hcl (by simp)
          · exact absurd he2 he
    · intro cl hcl
      exact absurd hcl (by simp)
  | some cl0 =>
    have hval : heap_reclaim_run (some cl0) e_free nbits ra putOk =
        (if e_free = cl0.nallocs then ⟨1, false⟩ else ⟨0, ra && putOk⟩) := rfl
    constructor
    · rw [hval]
      by_cases he : e_free = cl0.nallocs
      · rw [if_pos he]
        constructor
        · intro _
          exact Or.inl ⟨cl0, rfl, he⟩
        · intro _
          rfl
      · rw [if_neg he]
        constructor
        · intro h
          simp at h
        · rintro (⟨cl, hcl, he2⟩ | ⟨hn, -⟩)
          · obtain rfl := Option.some_inj.mp hcl
            exact absurd he2 he
          · exact absurd hn (by simp)
    · intro cl hcl he
      obtain rfl := Option.some_inj.mp hcl
      rw [hval, if_neg he]
      refine ⟨rfl, ?_⟩
      show (ra && putOk) = true ↔ (ra = true ∧ putOk = true)
      exact (Bool.and_eq_true ra putOk).to_iff

/-- Witness for C6: a matched class with all 4 cells free returns 1; the
structure of the amended statement is exercised at concrete inputs. -/
theorem C6_heap_reclaim_run_witness :
    (heap_reclaim_run (some ⟨1, ClassType.run, 0, 4, 1⟩) 4 9 true true).ret =
      1 :=
  (C6_heap_reclaim_run_characterization (some ⟨1, ClassType.run, 0, 4, 1⟩)
      4 9 true true).1.mpr
    (Or.inl ⟨⟨1, ClassType.run, 0, 4, 1⟩, rfl, rfl⟩)

/-- C8: heap_memblock_on_free calls recycler_inc_unaccounted exactly when
the block is a run cell, its class resolves from the run's block size and
the chunk header's flags and size_idx, and the per-class recycler can be
obtained; in every other case (non-run block, no class, or recycler
allocation failure, which is only logged) nothing is called — the
function's only effect is the recorded call. -/
theorem C8_heap_memblock_on_free (byRun : Nat → Nat → Nat → Option AllocClassView)
    (runBlockSize : Nat) (z : Zone) (m : MemoryBlock) (mtype : MemblockType)
    (ra : Bool) :
    (heap_memblock_on_free byRun runBlockSize z m mtype ra = true ↔
      (mtype = MemblockType.run ∧
        byRun runBlockSize (z.chunk_headers m.chunk_id).flags
          (z.chunk_headers m.chunk_id).size_idx ≠ none ∧ ra = true)) ∧
    (mtype = MemblockType.huge →
      heap_memblock_on_free byRun runBlockSize z m mtype ra = false) ∧
    (byRun runBlockSize (z.chunk_headers m.chunk_id).flags
        (z.chunk_headers m.chunk_id).size_idx = none →
      heap_memblock_on_free byRun runBlockSize z m mtype ra = false) ∧
    (ra = false →
      heap_memblock_on_free byRun runBlockSize z m mtype ra = false) := by
  cases mtype with
  | huge =>
    have hval : heap_memblock_on_free byRun runBlockSize z m
        MemblockType.huge ra = false := rfl
    refine ⟨?_, fun _ => hval, fun _ => hval, fun _ => hval⟩
    rw [hval]
    constructor
    · intro h
      exact absurd h (by decide)
    · rintro ⟨h, -, -⟩
      exact absurd h (by decide)
  | run =>
    cases hb : byRun runBlockSize (z.chunk_headers m.chunk_id).flags
        (z.chunk_headers m.chunk_id).size_idx with
    | none =>
      have hval : heap_memblock_on_free byRun runBlockSize z m
          MemblockType.run ra = false := by
        show (match byRun runBlockSize (z.chunk_headers m.chunk_id).flags
            (z.chunk_headers m.chunk_id).size_idx with
          | none => false
          | some _ => ra) = false
        rw [hb]
      refine ⟨?_, fun _ => hval, fun _ => hval, fun _ => hval⟩
      rw [hval]
      constructor
      · intro h
        exact absurd h (by decide)
      · rintro ⟨-, hne, -⟩
        exact absurd rfl hne
    | some cl =>
      have hval : heap_memblock_on_free byRun runBlockSize z m
          MemblockType.run ra = ra := by
        show (match byRun runBlockSize (z.chunk_headers m.chunk_id).flags
            (z.chunk_headers m.chunk_id).size_idx with
          | none => false
          | some _ => ra) = ra
        rw [hb]
      refine ⟨?_, ?_, ?_, ?_⟩
      · rw [hval]
        constructor
        · intro h
          exact ⟨rfl, by simp, h⟩
        · rintro ⟨-, -, h⟩
          exact h
      · intro h
        exact absurd h (by decide)
      · intro h
        exact absurd h (by simp)
      · intro h
        rw [hval, h]

/-- Witness for C8: a run block with a resolving class and an available
recycler leads to one recycler_inc_unaccounted call. -/
theorem C8_heap_memblock_on_free_witness :
    heap_memblock_on_free (fun _ _ _ => some ⟨2, ClassType.run, 0, 16, 1⟩) 64
        zWit mWit MemblockType.run true = true :=
  (C8_heap_memblock_on_free (fun _ _ _ => some ⟨2, ClassType.run, 0, 16, 1⟩) 64
      zWit mWit MemblockType.run true).1.mpr ⟨rfl, by simp, rfl⟩

/-- The bestfit loop ends in ENOMEM exactly when, for some prefix, every
bucket_alloc_block attempt missed and every dispatched refill up to the
last one succeeded while the last one failed. -/
theorem bestfitLoop_enomem_iff (aclass : AllocClassView) (hr rr : Nat → Nat) :
    ∀ (l : List (Option MemoryBlock)) (k : Nat),
      heapGetBestfitLoop aclass hr rr l k = some none ↔
        ∃ j, j < l.length ∧ (∀ i, i ≤ j → l[i]? = some none) ∧
          (∀ i, i < j → bestfitRefill aclass hr rr (k + i) = 0) ∧
          bestfitRefill aclass hr rr (k + j) ≠ 0 := by
  intro l
  induction l with
  | nil =>
    intro k
    simp [heapGetBestfitLoop]
  | cons a rest ih =>
    intro k
    cases a with
    | some m =>
      constructor
      · intro h
        exact absurd h (by simp [heapGetBestfitLoop])
      · rintro ⟨j, hj, hall, -, -⟩
        have := hall 0 (Nat.zero_le j)
        simp at this
    | none =>
      show (if bestfitRefill aclass hr rr k ≠ 0 then some none
          else heapGetBestfitLoop aclass hr rr rest (k + 1)) = some none ↔ _
      by_cases hrf : bestfitRefill aclass hr rr k ≠ 0
      · rw [if_pos hrf]
        constructor
        · intro _
          refine ⟨0, by simp, ?_, ?_, by simpa using hrf⟩
          · intro i hi
            obtain rfl : i = 0 := by omega
            simp
          · intro i hi
            omega
        · intro _
          rfl
      · rw [if_neg hrf]
        push_neg at hrf
        rw [ih (k + 1)]
        constructor
        · rintro ⟨j, hj, hall, hok, hne⟩
          refine ⟨j + 1, by simp; omega, ?_, ?_, ?_⟩
          · intro i hi
            cases i with
            | zero => simp
            | succ i2 =>
              have := hall i2 (by omega)
              simpa using this
          · intro i hi
            cases i with
            | zero => simpa using hrf
            | succ i2 =>
              have := hok i2 (by omega)
              rwa [show k + 1 + i2 = k + (i2 + 1) by omega] at this
          · rwa [show k + (j + 1) = k + 1 + j by omega]
        · rintro ⟨j, hj, hall, hok, hne⟩
          cases j with
          | zero =>
            rw [Nat.add_zero] at hne
            exact absurd hrf hne
          | succ j2 =>
            refine ⟨j2, by simp at hj; omega, ?_, ?_, ?_⟩
            · intro i hi
              have := hall (i + 1) (by omega)
              simpa using this
            · intro i hi
              have := hok (i + 1) (by omega)
              rwa [show k + (i + 1) = k + 1 + i by omega] at this
            · rwa [show k + (j2 + 1) = k + 1 + j2 by omega] at hne

/-- C1: when the alloc loop obtains a block (at least as large as the
request — the bucket returns best fits), heap_get_bestfit_block returns 0
with m.size_idx equal to the requested units, m.header_type set to the
class's configured header type, and, if the obtained block was strictly
larger, the split remainder of size original minus units reinserted into
the same bucket; it returns ENOMEM exactly when, after misses, the refill
dispatched by the class's kind (huge or run) fails. -/
theorem C1_heap_get_bestfit_block (aclass : AllocClassView)
    (hr rr : Nat → Nat) (allocs : List (Option MemoryBlock))
    (m0 : MemoryBlock) :
    (∀ x, heapGetBestfitLoop aclass hr rr allocs 0 = some (some x) →
      m0.size_idx ≤ x.size_idx →
      ∃ res, heap_get_bestfit_block aclass hr rr allocs m0 = some res ∧
        res.ret = 0 ∧ res.m.size_idx = m0.size_idx ∧
        res.header_type = aclass.header_type ∧
        ((x.size_idx = m0.size_idx ∧ res.inserted = none) ∨
          (m0.size_idx < x.size_idx ∧ ∃ r, res.inserted = some r ∧
            r.size_idx = x.size_idx - m0.size_idx))) ∧
    ((∃ res, heap_get_bestfit_block aclass hr rr allocs m0 = some res ∧
        res.ret = ENOMEM) ↔
      ∃ j, j < allocs.length ∧ (∀ i, i ≤ j → allocs[i]? = some none) ∧
        (∀ i, i < j → bestfitRefill aclass hr rr i = 0) ∧
        bestfitRefill aclass hr rr j ≠ 0) ∧
    (∀ k, aclass.ctype = ClassType.huge → bestfitRefill aclass hr rr k = hr k) ∧
    (∀ k, aclass.ctype = ClassType.run → bestfitRefill aclass hr rr k = rr k) := by
  refine ⟨?_, ?_, ?_, ?_⟩
  · intro x hx hle
    unfold heap_get_bestfit_block
    simp only [hx]
    by_cases hne : m0.size_idx ≠ x.size_idx
    · rw [if_pos hne]
      refine ⟨_, rfl, rfl, ?_, rfl, ?_⟩
      · show (heap_split_block aclass x m0.size_idx).1.size_idx = m0.size_idx
        unfold heap_split_block
        cases aclass.ctype with
        | huge => rfl
        | run => rfl
      · refine Or.inr ⟨by omega, (heap_split_block aclass x m0.size_idx).2,
          rfl, ?_⟩
        unfold heap_split_block
        cases aclass.ctype with
        | huge => rfl
        | run => rfl
    · rw [if_neg hne]
      push_neg at hne
      exact ⟨_, rfl, rfl, by rw [← hne], rfl, Or.inl ⟨hne.symm, rfl⟩⟩
  · have hch := bestfitLoop_enomem_iff aclass hr rr allocs 0
    simp only [Nat.zero_add] at hch
    rw [← hch]
    cases hloop : heapGetBestfitLoop aclass hr rr allocs 0 with
    | none =>
      have hval : heap_get_bestfit_block aclass hr rr allocs m0 = none := by
        unfold heap_get_bestfit_block
        rw [hloop]
      rw [hval]
      constructor
      · rintro ⟨res, hres, -⟩
        exact absurd hres (by simp)
      · intro h
        exact absurd h (by simp)
    | some o =>
      cases o with
      | none =>
        have hval : heap_get_bestfit_block aclass hr rr allocs m0 =
            some ⟨ENOMEM, m0, 0, none⟩ := by
          unfold heap_get_bestfit_block
          rw [hloop]
        rw [hval]
        constructor
        · intro _
          rfl
        · intro _
          exact ⟨⟨ENOMEM, m0, 0, none⟩, rfl, rfl⟩
      | some x =>
        by_cases hne : m0.size_idx ≠ x.size_idx
        · have hval : heap_get_bestfit_block aclass hr rr allocs m0 =
              some ⟨0, (heap_split_block aclass x m0.size_idx).1,
                aclass.header_type,
                some (heap_split_block aclass x m0.size_idx).2⟩ := by
            unfold heap_get_bestfit_block
            simp only [hloop]
            rw [if_pos hne]
          rw [hval]
          constructor
          · rintro ⟨res, hres, hret⟩
            obtain rfl := Option.some_inj.mp hres
            exact absurd hret.symm (by norm_num [ENOMEM])
          · intro h
            exact absurd h (by simp)
        · have hval : heap_get_bestfit_block aclass hr rr allocs m0 =
              some ⟨0, x, aclass.header_type, none⟩ := by
            unfold heap_get_bestfit_block
            simp only [hloop]
            rw [if_neg hne]
          rw [hval]
          constructor
          · rintro ⟨res, hres, hret⟩
            obtain rfl := Option.some_inj.mp hres
            exact absurd hret.symm (by norm_num [ENOMEM])
          · intro h
            exact absurd h (by simp)
  · intro k h
    unfold bestfitRefill
    rw [h]
  · intro k h
    unfold bestfitRefill
    rw [h]

/-- Witness for C1: a huge-class request of 3 chunks; the first alloc
attempt misses, the refill succeeds, the second attempt returns a 5-chunk
block; the result keeps 3 chunks, carries header type 9, and a 2-chunk
remainder is reinserted. -/
theorem C1_heap_get_bestfit_block_witness :
    ∃ res, heap_get_bestfit_block ⟨0, ClassType.huge, 9, 0, 0⟩ (fun _ => 0)
        (fun _ => 0) [none, some ⟨0, 0, 5, 0⟩] ⟨0, 0, 3, 0⟩ = some res ∧
      res.ret = 0 ∧ res.m.size_idx = (⟨0, 0, 3, 0⟩ : MemoryBlock).size_idx ∧
      res.header_type = (⟨0, ClassType.huge, 9, 0, 0⟩ : AllocClassView).header_type ∧
      (((⟨0, 0, 5, 0⟩ : MemoryBlock).size_idx =
          (⟨0, 0, 3, 0⟩ : MemoryBlock).size_idx ∧ res.inserted = none) ∨
        ((⟨0, 0, 3, 0⟩ : MemoryBlock).size_idx <
            (⟨0, 0, 5, 0⟩ : MemoryBlock).size_idx ∧
          ∃ r, res.inserted = some r ∧
            r.size_idx = (⟨0, 0, 5, 0⟩ : MemoryBlock).size_idx -
              (⟨0, 0, 3, 0⟩ : MemoryBlock).size_idx)) :=
  (C1_heap_get_bestfit_block ⟨0, ClassType.huge, 9, 0, 0⟩ (fun _ => 0)
      (fun _ => 0) [none, some ⟨0, 0, 5, 0⟩] ⟨0, 0, 3, 0⟩).1
    ⟨0, 0, 5, 0⟩ rfl (by decide)

end DavHeap
